import Mathlib

/-!
# Verification of the Lattice-Framework-Solutions feedback/mode-selection core

Shallow embedding of the online-learning mode-selection engines found in
`feedback_layer_demo/feedback_layer_demo.py` (class `FeedbackLayerDemo`) and
`sentinel_os/sentinel_guard_demo.py` (class `ArchetypeTunerDemo`), together with
the CLI seed loops and the string-heuristic detectors of the two sentinel guard
files.

Modelling conventions:
* Python `float` values are embedded as `ℚ` (exact arithmetic); every claim
  settled here is structural (clamping, frame effects, argmax tie-breaking,
  zero tests) and does not depend on rounding.
* Python `dict`s are embedded as insertion-ordered association lists
  (`PDict κ ν := List (κ × ν)`): `alookup` returns the value at the first
  matching key, `aset` overwrites the first matching key in place or appends
  a new entry at the end, exactly as CPython dict assignment does.
* Python `set`s are embedded as `List`s with a `Nodup` hypothesis where
  duplicate-freedom matters.
* A Python statement that raises (`KeyError` on a missing mode row,
  `max`/`[0]` on an empty sequence) is totalised in the way noted at each
  definition; all theorems are used on the exception-free domain.
-/

/-- Insertion-ordered association list, the embedding of a Python `dict`. -/
abbrev PDict (κ ν : Type) := List (κ × ν)

/-- `d.get(k)` / `d[k]`-style lookup: value at the first matching key. -/
def alookup [DecidableEq κ] : PDict κ ν → κ → Option ν
  | [], _ => none
  | kv :: rest, k => if kv.1 = k then some kv.2 else alookup rest k

/-- `d[k] = v`: overwrite the first occurrence of `k` in place, else append
`(k, v)` at the end (CPython dict assignment keeps the original position). -/
def aset [DecidableEq κ] : PDict κ ν → κ → ν → PDict κ ν
  | [], k, v => [(k, v)]
  | kv :: rest, k, v => if kv.1 = k then (k, v) :: rest else kv :: aset rest k v

theorem alookup_nil [DecidableEq κ] (k : κ) : alookup ([] : PDict κ ν) k = none := rfl

theorem alookup_aset [DecidableEq κ] (d : PDict κ ν) (k : κ) (v : ν) (k' : κ) :
    alookup (aset d k v) k' = if k' = k then some v else alookup d k' := by
  induction d with
  | nil =>
    simp [aset, alookup]
    by_cases h : k' = k
    · subst h; simp
    · rw [if_neg (fun hh => h hh.symm), if_neg h]
  | cons kv rest ih =>
    by_cases h1 : kv.1 = k
    · subst h1
      simp [aset, if_pos rfl, alookup]
      by_cases h2 : k' = kv.1
      · subst h2; simp
      · have h3 : ¬ kv.1 = k' := fun hh => h2 hh.symm
        simp [alookup, h2, h3]
    · simp [aset, if_neg h1, alookup]
      by_cases h2 : kv.1 = k'
      · have h3 : ¬ k' = k := fun he => h1 (h2.trans he)
        simp [h2, h3]
      · simp [h2, ih]

theorem alookup_aset_self [DecidableEq κ] (d : PDict κ ν) (k : κ) (v : ν) :
    alookup (aset d k v) k = some v := by
  simp [alookup_aset]

theorem alookup_aset_ne [DecidableEq κ] (d : PDict κ ν) (k : κ) (v : ν) (k' : κ)
    (h : k' ≠ k) : alookup (aset d k v) k' = alookup d k' := by
  simp [alookup_aset, h]

theorem mem_aset [DecidableEq κ] (d : PDict κ ν) (k : κ) (v : ν) (x : κ × ν)
    (hx : x ∈ aset d k v) : x ∈ d ∨ x = (k, v) := by
  induction d with
  | nil => simp [aset] at hx; exact Or.inr hx
  | cons kv rest ih =>
    by_cases h1 : kv.1 = k
    · simp [aset, h1] at hx
      rcases hx with h | h
      · exact Or.inr h
      · exact Or.inl (List.mem_cons_of_mem _ h)
    · simp [aset, h1] at hx
      rcases hx with h | h
      · exact Or.inl (by simp [h])
      · rcases ih h with h2 | h2
        · exact Or.inl (List.mem_cons_of_mem _ h2)
        · exact Or.inr h2

theorem alookup_mem [DecidableEq κ] (d : PDict κ ν) (k : κ) (v : ν)
    (h : alookup d k = some v) : (k, v) ∈ d := by
  induction d with
  | nil => simp [alookup] at h
  | cons kv rest ih =>
    by_cases h1 : kv.1 = k
    · simp only [alookup, if_pos h1] at h
      have hv : kv.2 = v := Option.some.inj h
      rw [← h1, ← hv]
      simp
    · simp [alookup, if_neg h1] at h
      exact List.mem_cons_of_mem _ (ih h)

theorem aset_aset_self [DecidableEq κ] (d : PDict κ ν) (k : κ) (v w : ν) :
    aset (aset d k v) k w = aset d k w := by
  induction d with
  | nil => simp [aset]
  | cons kv rest ih =>
    by_cases h1 : kv.1 = k <;> simp [aset, h1, ih]

theorem alookup_map_val [DecidableEq κ] (d : PDict κ ν) (g : ν → ν') (k : κ) :
    alookup (d.map (fun kv => (kv.1, g kv.2))) k = (alookup d k).map g := by
  induction d with
  | nil => simp [alookup]
  | cons kv rest ih =>
    by_cases h1 : kv.1 = k <;> simp [alookup, h1, ih]

theorem alookup_append [DecidableEq κ] (a b : PDict κ ν) (k : κ) :
    alookup (a ++ b) k =
      (match alookup a k with
       | some v => some v
       | none => alookup b k) := by
  induction a with
  | nil => simp [alookup]
  | cons kv rest ih =>
    by_cases h1 : kv.1 = k <;> simp [alookup, h1, ih]

theorem aset_of_alookup_none [DecidableEq κ] (d : PDict κ ν) (k : κ) (v : ν)
    (h : alookup d k = none) : aset d k v = d ++ [(k, v)] := by
  induction d with
  | nil => simp [aset]
  | cons kv rest ih =>
    by_cases h1 : kv.1 = k
    · simp [alookup, h1] at h
    · simp [alookup, h1] at h
      simp [aset, h1, ih h]

/-- Folding `d[m] = f m` over a key list: the resulting lookup is `f k` for
every visited key and untouched otherwise. -/
theorem alookup_foldl_aset [DecidableEq κ] (ms : List κ) (f : κ → ν)
    (acc : PDict κ ν) (k : κ) :
    alookup (ms.foldl (fun sc m => aset sc m (f m)) acc) k =
      if k ∈ ms then some (f k) else alookup acc k := by
  induction ms generalizing acc with
  | nil => simp
  | cons m ms ih =>
    by_cases hk : k ∈ ms
    · simp [List.foldl_cons, ih, hk, List.mem_cons]
    · by_cases hkm : k = m
      · subst hkm
        simp [List.foldl_cons, ih, hk, alookup_aset_self]
      · simp [List.foldl_cons, ih, hk, hkm, alookup_aset_ne _ _ _ _ hkm]

/-- Building a dict by `d[key a] = val a` over a list with pairwise distinct
keys, starting from a dict that contains none of those keys, is the same as
appending one entry per element. -/
theorem foldl_aset_build [DecidableEq κ] (l : List A) (key : A → κ) (val : A → ν)
    (acc : PDict κ ν) (hnd : (l.map key).Nodup)
    (habs : ∀ a ∈ l, alookup acc (key a) = none) :
    l.foldl (fun d a => aset d (key a) (val a)) acc =
      acc ++ l.map (fun a => (key a, val a)) := by
  induction l generalizing acc with
  | nil => simp
  | cons a l ih =>
    simp only [List.map_cons, List.nodup_cons] at hnd
    have h1 : alookup acc (key a) = none := habs a (List.mem_cons_self _ _)
    have hside : ∀ b ∈ l, alookup (acc ++ [(key a, val a)]) (key b) = none := by
      intro b hb
      have hne : ¬ key a = key b := by
        intro he
        exact hnd.1 (he ▸ List.mem_map_of_mem key hb)
      rw [alookup_append, habs b (List.mem_cons_of_mem _ hb)]
      simp [alookup, hne]
    rw [List.foldl_cons, aset_of_alookup_none _ _ _ h1, ih _ hnd.2 hside]
    simp

/-- Hard clamp as written in both `apply_feedback` bodies:
`if v < clamp_min: v = clamp_min elif v > clamp_max: v = clamp_max`. -/
def pyClamp (cmin cmax v : ℚ) : ℚ :=
  if v < cmin then cmin else if v > cmax then cmax else v

theorem pyClamp_mem (cmin cmax v : ℚ) (h : cmin ≤ cmax) :
    cmin ≤ pyClamp cmin cmax v ∧ pyClamp cmin cmax v ≤ cmax := by
  unfold pyClamp
  split_ifs with h1 h2
  · exact ⟨le_refl _, h⟩
  · exact ⟨h, le_refl _⟩
  · exact ⟨le_of_not_lt h1, le_of_not_lt h2⟩

theorem pyClamp_id (cmin cmax v : ℚ) (h1 : cmin ≤ v) (h2 : v ≤ cmax) :
    pyClamp cmin cmax v = v := by
  unfold pyClamp
  rw [if_neg (not_lt.mpr h1), if_neg (not_lt.mpr h2)]

/-- The `FeedbackLayerDemo` dataclass of `feedback_layer_demo.py`
(fields in source order; `beta` is the mode ↦ (invariant ↦ weight) table). -/
structure FeedbackLayerDemo (μ τ : Type) where
  invariants : List τ
  modes : List μ
  learning_rate : ℚ
  clamp_min : ℚ
  clamp_max : ℚ
  verbose : Bool
  beta : PDict μ (PDict τ ℚ)

/-- One `__post_init__` row pass: `self.beta[m].setdefault(inv, 0.0)` for each
declared invariant (append-at-end when absent, keep when present). -/
def initRow [DecidableEq τ] (invs : List τ) (row : PDict τ ℚ) : PDict τ ℚ :=
  invs.foldl
    (fun r inv =>
      match alookup r inv with
      | some _ => r
      | none => r ++ [(inv, 0)])
    row

/-- `FeedbackLayerDemo.__post_init__`: for every declared mode create the row if
missing, then `setdefault` every declared invariant to `0.0`. -/
def initEnsure [DecidableEq μ] (b : PDict μ (PDict τ ℚ)) (m : μ) :
    PDict μ (PDict τ ℚ) :=
  match alookup b m with
  | some _ => b
  | none => b ++ [(m, [])]

def initBeta [DecidableEq μ] [DecidableEq τ] (modes : List μ) (invs : List τ)
    (beta : PDict μ (PDict τ ℚ)) : PDict μ (PDict τ ℚ) :=
  modes.foldl
    (fun b m =>
      aset (initEnsure b m) m (initRow invs ((alookup (initEnsure b m) m).getD [])))
    beta

/-- Constructing `FeedbackLayerDemo(invariants=…, modes=…, …)`: the dataclass
default `beta={}` followed by `__post_init__`. -/
def mkFeedbackLayerDemo [DecidableEq μ] [DecidableEq τ] (invs : List τ)
    (modes : List μ) (lr cmin cmax : ℚ) (vb : Bool) : FeedbackLayerDemo μ τ :=
  { invariants := invs
    modes := modes
    learning_rate := lr
    clamp_min := cmin
    clamp_max := cmax
    verbose := vb
    beta := initBeta modes invs [] }

/-- The per-mode score loop of `FeedbackLayerDemo.score_modes`:
`s = 0.0; for inv, w in active_weights.items(): if inv in row: s += row[inv]*w`.
A mode whose row is missing from `beta` would raise `KeyError` in Python; the
model reads the row with default `{}` (never reached for constructed engines,
whose `__post_init__` creates every mode row). -/
def scoreStep [DecidableEq τ] (row : PDict τ ℚ) (s : ℚ) (iw : τ × ℚ) : ℚ :=
  match alookup row iw.1 with
  | none => s
  | some b => s + b * iw.2

def score_of [DecidableEq μ] [DecidableEq τ] (e : FeedbackLayerDemo μ τ)
    (active_weights : PDict τ ℚ) (m : μ) : ℚ :=
  active_weights.foldl (scoreStep ((alookup e.beta m).getD [])) 0

/-- `FeedbackLayerDemo.score_modes`: `scores[m] = s` for each declared mode in
order. -/
def score_modes [DecidableEq μ] [DecidableEq τ] (e : FeedbackLayerDemo μ τ)
    (active_weights : PDict τ ℚ) : PDict μ ℚ :=
  e.modes.foldl (fun scores m => aset scores m (score_of e active_weights m)) []

/-- Python `max(scores, key=scores.get)` over an insertion-ordered dict:
the first key attaining the maximal value (strict `>` keeps the incumbent).
Python raises `ValueError` on an empty dict; the model returns `none`. -/
def pyMaxKey : PDict μ ℚ → Option μ
  | [] => none
  | kv :: rest =>
    some (rest.foldl (fun best x => if x.2 > best.2 then x else best) kv).1

/-- `FeedbackLayerDemo.select_mode`. -/
def select_mode [DecidableEq μ] [DecidableEq τ] (e : FeedbackLayerDemo μ τ)
    (active_weights : PDict τ ℚ) : Option μ :=
  pyMaxKey (score_modes e active_weights)

/-- One iteration of the `apply_feedback` update loop, written exactly as the
source: `row[inv] = row.get(inv, 0.0) + delta` followed by the two-sided clamp
of `row[inv]`. -/
def updateInv [DecidableEq τ] (cmin cmax : ℚ) (r : PDict τ ℚ) (inv : τ)
    (delta : ℚ) : PDict τ ℚ :=
  let v := (alookup r inv).getD 0 + delta
  let r1 := aset r inv v
  if v < cmin then aset r1 inv cmin
  else if v > cmax then aset r1 inv cmax
  else r1

/-- `FeedbackLayerDemo.apply_feedback`. A `chosen_mode` with no row raises
`KeyError` in Python before any mutation; the model returns the state
unchanged, which is the observable table state after the exception. -/
def apply_feedback [DecidableEq μ] [DecidableEq τ] (e : FeedbackLayerDemo μ τ)
    (chosen_mode : μ) (engraved_invariants : PDict τ ℚ) (reward : ℚ) :
    FeedbackLayerDemo μ τ :=
  if reward = 0 then e
  else
    match alookup e.beta chosen_mode with
    | none => e
    | some row =>
      let row2 := engraved_invariants.foldl
        (fun r iw => updateInv e.clamp_min e.clamp_max r iw.1
          (e.learning_rate * reward * iw.2))
        row
      { e with beta := aset e.beta chosen_mode row2 }

/-- `FeedbackLayerDemo.snapshot_beta`: a dict comprehension over the declared
modes and declared invariants only. `self.beta[m][inv]` raises `KeyError` on a
pair missing from the table; the model reads with default (`{}` / `0.0`),
never reached for constructed engines. -/
def snapshot_beta [DecidableEq μ] [DecidableEq τ] (e : FeedbackLayerDemo μ τ) :
    PDict μ (PDict τ ℚ) :=
  e.modes.foldl
    (fun acc m =>
      aset acc m
        (e.invariants.foldl
          (fun r inv =>
            aset r inv ((alookup ((alookup e.beta m).getD []) inv).getD 0))
          []))
    []

/-- Nested table lookup `beta[m][t]` as a partial read. -/
def bget [DecidableEq μ] [DecidableEq τ] (b : PDict μ (PDict τ ℚ)) (m : μ)
    (t : τ) : Option ℚ :=
  (alookup b m).bind (fun r => alookup r t)

/-- A finite sequence of `apply_feedback` calls. -/
def applySeq [DecidableEq μ] [DecidableEq τ] (e : FeedbackLayerDemo μ τ)
    (calls : List (μ × PDict τ ℚ × ℚ)) : FeedbackLayerDemo μ τ :=
  calls.foldl (fun s c => apply_feedback s c.1 c.2.1 c.2.2) e

/-- The `ArchetypeTunerDemo` dataclass of `sentinel_guard_demo.py`
(flat `beta` keyed by `(mode, token)` tuples). -/
structure ArchetypeTunerDemo (μ τ : Type) where
  modes : List μ
  beta : PDict (μ × τ) ℚ
  learning_rate : ℚ
  clamp_min : ℚ
  clamp_max : ℚ
  verbose : Bool

/-- Constructing `ArchetypeTunerDemo(modes=…, …)` with the dataclass default
`beta={}`. -/
def mkArchetypeTunerDemo [DecidableEq μ] [DecidableEq τ] (modes : List μ)
    (lr cmin cmax : ℚ) (vb : Bool) : ArchetypeTunerDemo μ τ :=
  { modes := modes
    beta := []
    learning_rate := lr
    clamp_min := cmin
    clamp_max := cmax
    verbose := vb }

/-- `ArchetypeTunerDemo.score_modes`: scores start at `0.0` for every declared
mode; each active token with `weights.get(tok, 0.0) > 0` adds `beta[(m,tok)]*wt`
to every mode that has an association for it. `active_tokens` is a Python set,
embedded as a list. `scores[m] +=` is modelled with a `getD 0` read (the key is
always present, having been initialised in the comprehension). -/
def tunerInnerStep [DecidableEq μ] [DecidableEq τ] (beta : PDict (μ × τ) ℚ)
    (tok : τ) (wt : ℚ) (sc2 : PDict μ ℚ) (m : μ) : PDict μ ℚ :=
  match alookup beta (m, tok) with
  | none => sc2
  | some b => aset sc2 m ((alookup sc2 m).getD 0 + b * wt)

def tunerTokStep [DecidableEq μ] [DecidableEq τ] (e : ArchetypeTunerDemo μ τ)
    (weights : PDict τ ℚ) (sc : PDict μ ℚ) (tok : τ) : PDict μ ℚ :=
  if (alookup weights tok).getD 0 ≤ 0 then sc
  else e.modes.foldl (tunerInnerStep e.beta tok ((alookup weights tok).getD 0)) sc

def tuner_score_modes [DecidableEq μ] [DecidableEq τ] (e : ArchetypeTunerDemo μ τ)
    (active_tokens : List τ) (weights : PDict τ ℚ) : PDict μ ℚ :=
  active_tokens.foldl (tunerTokStep e weights)
    (e.modes.foldl (fun sc m => aset sc m 0) [])

/-- `scores.get(m, float('-inf'))` comparison: `none` plays the role of `-inf`,
strictly below every rational and not above itself. -/
def optGT : Option ℚ → Option ℚ → Bool
  | some a, some b => decide (a > b)
  | some _, none => true
  | none, _ => false

def tunerSelStep [DecidableEq μ] (scores : PDict μ ℚ) (best : μ × Option ℚ)
    (m : μ) : μ × Option ℚ :=
  if optGT (alookup scores m) best.2 then (m, alookup scores m) else best

/-- `ArchetypeTunerDemo.select_mode`: start from `modes[0]`, replace the
incumbent only on strictly larger score. Python raises `IndexError` on an
empty mode list; the model returns `none`. -/
def tuner_select_mode [DecidableEq μ] [DecidableEq τ] (e : ArchetypeTunerDemo μ τ)
    (active_tokens : List τ) (weights : PDict τ ℚ) : Option μ :=
  match e.modes with
  | [] => none
  | m0 :: rest =>
    some
      (rest.foldl (tunerSelStep (tuner_score_modes e active_tokens weights))
        (m0, alookup (tuner_score_modes e active_tokens weights) m0)).1

/-- `ArchetypeTunerDemo.apply_feedback`: for each engraved token add
`learning_rate * reward` (no per-token weight), then clamp **every** stored
entry of `beta` (the final loop runs over `list(self.beta.keys())`). -/
def tuner_apply_feedback [DecidableEq μ] [DecidableEq τ]
    (e : ArchetypeTunerDemo μ τ) (mode_used : μ) (engraved_tokens : List τ)
    (reward : ℚ) : ArchetypeTunerDemo μ τ :=
  if reward = 0 then e
  else
    let beta1 := engraved_tokens.foldl
      (fun b tok =>
        aset b (mode_used, tok)
          ((alookup b (mode_used, tok)).getD 0 + e.learning_rate * reward))
      e.beta
    { e with
      beta := beta1.map (fun kv => (kv.1, pyClamp e.clamp_min e.clamp_max kv.2)) }

/-- `ArchetypeTunerDemo.snapshot_beta`: `{f"{m}|{t}": v for (m, t), v in
self.beta.items()}`, at `String` identifiers. -/
def tuner_snapshot_beta (e : ArchetypeTunerDemo String String) : PDict String ℚ :=
  e.beta.foldl (fun acc kv => aset acc (kv.1.1 ++ "|" ++ kv.1.2) kv.2) []

/-- A finite sequence of `ArchetypeTunerDemo.apply_feedback` calls. -/
def tunerApplySeq [DecidableEq μ] [DecidableEq τ] (e : ArchetypeTunerDemo μ τ)
    (calls : List (μ × List τ × ℚ)) : ArchetypeTunerDemo μ τ :=
  calls.foldl (fun s c => tuner_apply_feedback s c.1 c.2.1 c.2.2) e

def testE : FeedbackLayerDemo String String :=
  mkFeedbackLayerDemo ["Demo-Panic", "Demo-Focus", "Demo-Sad", "Demo-Playful"]
    ["soft", "direct", "coach"] (1/5) (-1) 1 true

def testT : ArchetypeTunerDemo String String :=
  { modes := ["STRICT", "LENIENT", "BALANCED"]
    beta := [(("STRICT", "therapy-drift"), 9/10), (("STRICT", "assistant-takeover"), 9/10),
             (("LENIENT", "ignored-wants"), -1/2), (("BALANCED", "ignored-wants"), 3/10)]
    learning_rate := 1/10
    clamp_min := -2
    clamp_max := 2
    verbose := true }

/-- `needle` is a leading segment of `haystack` (character-wise). -/
def startsWithSeq : List Char → List Char → Bool
  | _, [] => true
  | [], _ :: _ => false
  | x :: xs, y :: ys => decide (x = y) && startsWithSeq xs ys

/-- Python `needle in haystack` substring containment on character lists. -/
def containsSeq : List Char → List Char → Bool
  | [], n => n.isEmpty
  | x :: t, n => startsWithSeq (x :: t) n || containsSeq t n

/-- Python `text.lower()` (the detector keywords are ASCII, where
`Char.toLower` agrees with `str.lower`). -/
def lowerStr (s : String) : List Char := s.toList.map Char.toLower

/-- ASCII apostrophe, written by code point. -/
def aposChar : Char := Char.ofNat 39

/-- The three keywords of `_demo_detect_therapy_script`; the second contains an
apostrophe, inserted by code point. -/
def therapyScriptKeywords : List (List Char) :=
  ["as your therapist".toList,
   "let".toList ++ [aposChar] ++ "s process your feelings".toList,
   "inner child".toList]

/-- `sentinel_os/sentinel_guard_demo.py` `_demo_detect_therapy_script`:
`score += 0.4` per keyword found in the lowercased text, capped by
`min(score, 1.0)`. -/
def demo_detect_therapy_script (text : String) : ℚ :=
  min
    (therapyScriptKeywords.foldl
      (fun s k => if containsSeq (lowerStr text) k then s + 2/5 else s) 0)
    1

/-- The three markers of `_demo_detect_assistant_takeover`. -/
def takeoverMarkers : List (List Char) :=
  ["as an ai assistant".toList, "as a language model".toList, "chatgpt".toList]

/-- `_demo_detect_assistant_takeover`: `score += 0.6` per marker, capped at 1. -/
def demo_detect_assistant_takeover (text : String) : ℚ :=
  min
    (takeoverMarkers.foldl
      (fun s k => if containsSeq (lowerStr text) k then s + 3/5 else s) 0)
    1

/-- `_demo_detect_ignored_user_wants`: `0.0` unless the user wanted bullets and
no bullet token occurs, in which case the toy constant `0.7`. -/
def demo_detect_ignored_user_wants (text : String) (user_wanted_bullets : Bool) : ℚ :=
  if user_wanted_bullets = false then 0
  else if containsSeq text.toList "-".toList || containsSeq text.toList "1.".toList
      || containsSeq text.toList "•".toList then 0
  else 7/10

/-- `sentinel_os_demo` public constant `THERAPY_KEYWORDS` (same three keywords). -/
def THERAPY_KEYWORDS : List (List Char) := therapyScriptKeywords

/-- `sentinel_os_demo` public constant `ASSISTANT_SELF_REFERENCE_MARKERS`. -/
def ASSISTANT_SELF_REFERENCE_MARKERS : List (List Char) :=
  ["as your assistant".toList, "as this assistant".toList]

/-- `sentinel_os_demo/...: _demo_detect_therapy_tone`:
`min(matches * 0.4, 1.0)` with `matches` the number of matching keywords. -/
def demo_detect_therapy_tone (text : String) : ℚ :=
  min
    (((THERAPY_KEYWORDS.filter (fun k => containsSeq (lowerStr text) k)).length : ℚ)
      * (2/5))
    1

/-- `_demo_detect_assistant_self_reference`: `min(matches * 0.6, 1.0)`. -/
def demo_detect_assistant_self_reference (text : String) : ℚ :=
  min
    (((ASSISTANT_SELF_REFERENCE_MARKERS.filter
        (fun k => containsSeq (lowerStr text) k)).length : ℚ) * (3/5))
    1

/-- `_demo_detect_ignored_user_format` (identical logic to
`_demo_detect_ignored_user_wants`). -/
def demo_detect_ignored_user_format (text : String) (user_wants_bullets : Bool) : ℚ :=
  if user_wants_bullets = false then 0
  else if containsSeq text.toList "-".toList || containsSeq text.toList "1.".toList
      || containsSeq text.toList "•".toList then 0
  else 7/10

theorem detector_foldl_nonneg (ks : List (List Char)) (lowered : List Char)
    (c : ℚ) (hc : 0 ≤ c) (s : ℚ) (hs : 0 ≤ s) :
    0 ≤ ks.foldl (fun s k => if containsSeq lowered k then s + c else s) s := by
  induction ks generalizing s with
  | nil => exact hs
  | cons k ks ih =>
    rw [List.foldl_cons]
    by_cases h : containsSeq lowered k
    · exact ih _ (by rw [if_pos h]; linarith)
    · exact ih _ (by rw [if_neg h]; exact hs)

/-- Claim C10: each of the six demo heuristic detectors returns a value in
`[0, 1]`, for every input string and flag value. -/
theorem detector_scores_bounded (text : String) (b : Bool) :
    (0 ≤ demo_detect_therapy_script text ∧ demo_detect_therapy_script text ≤ 1) ∧
    (0 ≤ demo_detect_assistant_takeover text ∧ demo_detect_assistant_takeover text ≤ 1) ∧
    (0 ≤ demo_detect_ignored_user_wants text b ∧ demo_detect_ignored_user_wants text b ≤ 1) ∧
    (0 ≤ demo_detect_therapy_tone text ∧ demo_detect_therapy_tone text ≤ 1) ∧
    (0 ≤ demo_detect_assistant_self_reference text ∧
      demo_detect_assistant_self_reference text ≤ 1) ∧
    (0 ≤ demo_detect_ignored_user_format text b ∧
      demo_detect_ignored_user_format text b ≤ 1) := by
  refine ⟨⟨?_, ?_⟩, ⟨?_, ?_⟩, ⟨?_, ?_⟩, ⟨?_, ?_⟩, ⟨?_, ?_⟩, ⟨?_, ?_⟩⟩
  · exact le_min (detector_foldl_nonneg _ _ _ (by norm_num) _ le_rfl) (by norm_num)
  · exact min_le_right _ _
  · exact le_min (detector_foldl_nonneg _ _ _ (by norm_num) _ le_rfl) (by norm_num)
  · exact min_le_right _ _
  · unfold demo_detect_ignored_user_wants
    split_ifs <;> norm_num
  · unfold demo_detect_ignored_user_wants
    split_ifs <;> norm_num
  · exact le_min (by positivity) (by norm_num)
  · exact min_le_right _ _
  · exact le_min (by positivity) (by norm_num)
  · exact min_le_right _ _
  · unfold demo_detect_ignored_user_format
    split_ifs <;> norm_num
  · unfold demo_detect_ignored_user_format
    split_ifs <;> norm_num

/-- Claim C5: a reward of exactly `0.0` leaves the table unchanged — both
`FeedbackLayerDemo.apply_feedback` and `ArchetypeTunerDemo.apply_feedback`
return with no mutation on `reward == 0.0`. -/
theorem zero_reward_noop {μ τ : Type} [DecidableEq μ] [DecidableEq τ] :
    (∀ (e : FeedbackLayerDemo μ τ) (m : μ) (engraved : PDict τ ℚ),
      apply_feedback e m engraved 0 = e) ∧
    (∀ (e : ArchetypeTunerDemo μ τ) (m : μ) (toks : List τ),
      tuner_apply_feedback e m toks 0 = e) := by
  constructor <;> intro e m x <;> simp [apply_feedback, tuner_apply_feedback]

theorem scoreStep_fold_eq [DecidableEq τ] (row : PDict τ ℚ) (l : PDict τ ℚ) (s : ℚ) :
    l.foldl (scoreStep row) s =
      s + (l.map (fun iw => (alookup row iw.1).getD 0 * iw.2)).sum := by
  induction l generalizing s with
  | nil => simp
  | cons iw l ih =>
    rw [List.foldl_cons]
    cases h : alookup row iw.1 with
    | none =>
      rw [show scoreStep row s iw = s by unfold scoreStep; rw [h], ih]
      simp [h]
    | some b =>
      rw [show scoreStep row s iw = s + b * iw.2 by unfold scoreStep; rw [h], ih]
      simp [h]
      ring

/-- The claim-side scoring formula: `Σ_t beta[m][t] * active_weights[t]` over
the entries of `active_weights`, with `beta[m][t]` defaulting to `0.0`. -/
theorem score_of_eq_sum [DecidableEq μ] [DecidableEq τ] (e : FeedbackLayerDemo μ τ)
    (active : PDict τ ℚ) (m : μ) :
    score_of e active m =
      (active.map
        (fun iw => (alookup ((alookup e.beta m).getD []) iw.1).getD 0 * iw.2)).sum := by
  unfold score_of
  rw [scoreStep_fold_eq]
  simp

theorem score_modes_alookup [DecidableEq μ] [DecidableEq τ]
    (e : FeedbackLayerDemo μ τ) (active : PDict τ ℚ) (m : μ) :
    alookup (score_modes e active) m =
      if m ∈ e.modes then some (score_of e active m) else none := by
  unfold score_modes
  rw [alookup_foldl_aset]
  by_cases h : m ∈ e.modes <;> simp [h, alookup]

theorem score_modes_eq_map [DecidableEq μ] [DecidableEq τ]
    (e : FeedbackLayerDemo μ τ) (active : PDict τ ℚ) (hnd : e.modes.Nodup) :
    score_modes e active = e.modes.map (fun m => (m, score_of e active m)) := by
  unfold score_modes
  have h := foldl_aset_build e.modes (fun m => m) (fun m => score_of e active m) []
    (by simpa using hnd) (by intro a _; rfl)
  simpa using h

/-- First-argmax fold over a list of candidates, the common combinatorial core
of both `select_mode` implementations. -/
def argmaxFold (f : μ → ℚ) : μ → List μ → μ
  | best, [] => best
  | best, x :: xs => argmaxFold f (if f x > f best then x else best) xs

theorem pyMaxFold_map (f : μ → ℚ) (l : List μ) (b : μ) :
    (l.map (fun m => (m, f m))).foldl
        (fun best x => if x.2 > best.2 then x else best) (b, f b)
      = (argmaxFold f b l, f (argmaxFold f b l)) := by
  induction l generalizing b with
  | nil => simp [argmaxFold]
  | cons x xs ih =>
    rw [List.map_cons, List.foldl_cons]
    unfold argmaxFold
    by_cases h : f x > f b
    · rw [if_pos h, if_pos h, ih]
    · rw [if_neg h, if_neg h, ih]

theorem find?_congr_mem (l : List α) (p q : α → Bool) (h : ∀ x ∈ l, p x = q x) :
    l.find? p = l.find? q := by
  induction l with
  | nil => rfl
  | cons x xs ih =>
    have hx := h x (List.mem_cons_self _ _)
    cases hpx : p x with
    | true =>
      rw [List.find?_cons_of_pos _ hpx, List.find?_cons_of_pos _ (hx ▸ hpx)]
    | false =>
      rw [List.find?_cons_of_neg _ (by simp [hpx]),
        List.find?_cons_of_neg _ (by simp [← hx, hpx]),
        ih (fun y hy => h y (List.mem_cons_of_mem _ hy))]

theorem argmaxFold_spec (f : μ → ℚ) (l : List μ) (b : μ) :
    argmaxFold f b l ∈ b :: l ∧
    (∀ m ∈ b :: l, f m ≤ f (argmaxFold f b l)) ∧
    (b :: l).find? (fun m => decide (f (argmaxFold f b l) ≤ f m))
      = some (argmaxFold f b l) := by
  induction l generalizing b with
  | nil =>
    refine ⟨List.mem_cons_self _ _, ?_, ?_⟩
    · intro m hm
      rcases List.mem_cons.mp hm with h | h
      · subst h; exact le_rfl
      · exact absurd h (List.not_mem_nil m)
    · exact List.find?_cons_of_pos _ (by simp [argmaxFold])
  | cons x xs ih =>
    have harg : argmaxFold f b (x :: xs) = argmaxFold f (if f x > f b then x else b) xs := rfl
    obtain ⟨hmem, hmax, hfind⟩ := ih (if f x > f b then x else b)
    by_cases hx : f x > f b
    · rw [if_pos hx] at hmem hmax hfind
      rw [harg, if_pos hx]
      have hxr : f x ≤ f (argmaxFold f x xs) := hmax x (List.mem_cons_self _ _)
      refine ⟨?_, ?_, ?_⟩
      · rcases List.mem_cons.mp hmem with h | h
        · rw [h]; exact List.mem_cons_of_mem _ (List.mem_cons_self _ _)
        · exact List.mem_cons_of_mem _ (List.mem_cons_of_mem _ h)
      · intro m hm
        rcases List.mem_cons.mp hm with h | h
        · subst h; exact le_trans (le_of_lt hx) hxr
        · exact hmax m h
      · have hb : (fun m => decide (f (argmaxFold f x xs) ≤ f m)) b = false := by
          simp only [decide_eq_false_iff_not, not_le]
          exact lt_of_lt_of_le hx hxr
        rw [List.find?_cons_of_neg _ (by simp [hb])]
        exact hfind
    · rw [if_neg hx] at hmem hmax hfind
      rw [harg, if_neg hx]
      refine ⟨?_, ?_, ?_⟩
      · rcases List.mem_cons.mp hmem with h | h
        · rw [h]; exact List.mem_cons_self _ _
        · exact List.mem_cons_of_mem _ (List.mem_cons_of_mem _ h)
      · intro m hm
        rcases List.mem_cons.mp hm with h | h
        · subst h; exact hmax _ (List.mem_cons_self _ _)
        · rcases List.mem_cons.mp h with h2 | h2
          · subst h2
            exact le_trans (le_of_not_lt hx) (hmax _ (List.mem_cons_self _ _))
          · exact hmax m (List.mem_cons_of_mem _ h2)
      · cases hpb : (fun m => decide (f (argmaxFold f b xs) ≤ f m)) b with
        | true =>
          have h1 : (b :: xs).find? (fun m => decide (f (argmaxFold f b xs) ≤ f m))
              = some b := List.find?_cons_of_pos _ (by exact hpb)
          have h2 : b = argmaxFold f b xs := by
            have := h1.symm.trans hfind
            exact Option.some.inj this
          rw [List.find?_cons_of_pos _ (by exact hpb)]
          exact congrArg some h2
        | false =>
          have hnb : ¬ f (argmaxFold f b xs) ≤ f b := by
            simpa using hpb
          have hpx2 : (fun m => decide (f (argmaxFold f b xs) ≤ f m)) x = false := by
            simp only [decide_eq_false_iff_not, not_le]
            exact lt_of_le_of_lt (le_of_not_lt hx) (lt_of_not_le hnb)
          rw [List.find?_cons_of_neg _ (by simp [hpb]),
            List.find?_cons_of_neg _ (by simp [hpx2])]
          rw [List.find?_cons_of_neg _ (by simp [hpb])] at hfind
          exact hfind

/-- Per-token contribution to a tuner mode score: `beta[(m, t)]` (default 0)
times the effective weight (`weights.get(t, 0.0)`, zeroed because the code
skips tokens whose weight is `≤ 0`). -/
def tunerContrib [DecidableEq μ] [DecidableEq τ] (e : ArchetypeTunerDemo μ τ)
    (weights : PDict τ ℚ) (m : μ) (t : τ) : ℚ :=
  (alookup e.beta (m, t)).getD 0 *
    (if (alookup weights t).getD 0 ≤ 0 then 0 else (alookup weights t).getD 0)

theorem tunerInnerStep_fold_frame [DecidableEq μ] [DecidableEq τ]
    (beta : PDict (μ × τ) ℚ) (tok : τ) (wt : ℚ) (ms : List μ) (sc : PDict μ ℚ)
    (k : μ) (hk : k ∉ ms) :
    alookup (ms.foldl (tunerInnerStep beta tok wt) sc) k = alookup sc k := by
  induction ms generalizing sc with
  | nil => rfl
  | cons x xs ih =>
    have hkx : k ≠ x := fun he => hk (he ▸ List.mem_cons_self _ _)
    have hkxs : k ∉ xs := fun hh => hk (List.mem_cons_of_mem _ hh)
    rw [List.foldl_cons, ih _ hkxs]
    unfold tunerInnerStep
    cases alookup beta (x, tok) with
    | none => rfl
    | some b => exact alookup_aset_ne _ _ _ _ hkx

theorem tunerInnerStep_fold_alookup [DecidableEq μ] [DecidableEq τ]
    (beta : PDict (μ × τ) ℚ) (tok : τ) (wt : ℚ) (ms : List μ)
    (hnd : ms.Nodup) (sc : PDict μ ℚ) (g : μ → ℚ)
    (hsc : ∀ m ∈ ms, alookup sc m = some (g m)) :
    ∀ m ∈ ms, alookup (ms.foldl (tunerInnerStep beta tok wt) sc) m =
      some (g m + (alookup beta (m, tok)).getD 0 * wt) := by
  induction ms generalizing sc with
  | nil => intro m hm; exact absurd hm (List.not_mem_nil m)
  | cons x xs ih =>
    rw [List.nodup_cons] at hnd
    intro m hm
    have hstep : ∀ j : μ, alookup (tunerInnerStep beta tok wt sc x) j =
        if j = x then some (g x + (alookup beta (x, tok)).getD 0 * wt)
        else alookup sc j := by
      intro j
      unfold tunerInnerStep
      cases hb : alookup beta (x, tok) with
      | none =>
        by_cases hj : j = x
        · subst hj
          rw [if_pos rfl, hsc j (List.mem_cons_self _ _)]
          simp
        · rw [if_neg hj]
      | some b =>
        rw [alookup_aset, hsc x (List.mem_cons_self _ _)]
        by_cases hj : j = x
        · subst hj; simp [hb]
        · rw [if_neg hj, if_neg hj]
    rcases List.mem_cons.mp hm with h | h
    · subst h
      rw [List.foldl_cons, tunerInnerStep_fold_frame _ _ _ _ _ _ hnd.1, hstep]
      rw [if_pos rfl]
    · have hmx : m ≠ x := fun he => hnd.1 (he ▸ h)
      rw [List.foldl_cons]
      exact ih hnd.2 _ (fun j hj => by
        rw [hstep]
        rw [if_neg (fun he => hnd.1 (by rw [← he]; exact hj))]
        exact hsc j (List.mem_cons_of_mem _ hj)) m h

theorem tunerTokStep_fold_alookup [DecidableEq μ] [DecidableEq τ]
    (e : ArchetypeTunerDemo μ τ) (weights : PDict τ ℚ) (hnd : e.modes.Nodup)
    (toks : List τ) (sc : PDict μ ℚ) (g : μ → ℚ)
    (hsc : ∀ m ∈ e.modes, alookup sc m = some (g m)) :
    ∀ m ∈ e.modes, alookup (toks.foldl (tunerTokStep e weights) sc) m =
      some (g m + (toks.map (tunerContrib e weights m)).sum) := by
  induction toks generalizing sc g with
  | nil =>
    intro m hm
    rw [List.foldl_nil, hsc m hm]
    simp
  | cons t ts ih =>
    intro m hm
    rw [List.foldl_cons]
    by_cases hw : (alookup weights t).getD 0 ≤ 0
    · have hstep : tunerTokStep e weights sc t = sc := by
        unfold tunerTokStep; rw [if_pos hw]
      rw [hstep, ih sc g hsc m hm]
      have hc : tunerContrib e weights m t = 0 := by
        unfold tunerContrib; rw [if_pos hw, mul_zero]
      rw [List.map_cons, List.sum_cons, hc, zero_add]
    · have hstep : tunerTokStep e weights sc t =
          e.modes.foldl (tunerInnerStep e.beta t ((alookup weights t).getD 0)) sc := by
        unfold tunerTokStep; rw [if_neg hw]
      rw [hstep]
      have hsc2 : ∀ j ∈ e.modes,
          alookup (e.modes.foldl (tunerInnerStep e.beta t ((alookup weights t).getD 0)) sc) j =
            some (g j + tunerContrib e weights j t) := by
        intro j hj
        have h := tunerInnerStep_fold_alookup e.beta t ((alookup weights t).getD 0)
          e.modes hnd sc g hsc j hj
        rw [h]
        unfold tunerContrib
        rw [if_neg hw]
      rw [ih _ _ hsc2 m hm, List.map_cons, List.sum_cons]
      ring_nf

theorem tuner_score_modes_alookup [DecidableEq μ] [DecidableEq τ]
    (e : ArchetypeTunerDemo μ τ) (toks : List τ) (weights : PDict τ ℚ)
    (hnd : e.modes.Nodup) :
    ∀ m ∈ e.modes, alookup (tuner_score_modes e toks weights) m =
      some ((toks.map (tunerContrib e weights m)).sum) := by
  intro m hm
  unfold tuner_score_modes
  have hinit : ∀ j ∈ e.modes,
      alookup (e.modes.foldl (fun sc m => aset sc m 0) []) j = some ((fun _ => (0:ℚ)) j) := by
    intro j hj
    rw [alookup_foldl_aset _ (fun _ => (0:ℚ))]
    rw [if_pos hj]
  have h := tunerTokStep_fold_alookup e weights hnd toks _ _ hinit m hm
  rw [h, zero_add]

/-- The code's per-mode tuner score, read back from the scores dict. -/
def tunerScore [DecidableEq μ] [DecidableEq τ] (e : ArchetypeTunerDemo μ τ)
    (toks : List τ) (weights : PDict τ ℚ) (m : μ) : ℚ :=
  (alookup (tuner_score_modes e toks weights) m).getD 0

theorem tunerSelFold_argmax [DecidableEq μ] (scores : PDict μ ℚ) (f : μ → ℚ)
    (rest : List μ) (b : μ) (hb : alookup scores b = some (f b))
    (hrest : ∀ m ∈ rest, alookup scores m = some (f m)) :
    (rest.foldl (tunerSelStep scores) (b, alookup scores b)).1 =
      argmaxFold f b rest := by
  induction rest generalizing b with
  | nil => rfl
  | cons x xs ih =>
    have hx : alookup scores x = some (f x) := hrest x (List.mem_cons_self _ _)
    have hstep : tunerSelStep scores (b, alookup scores b) x =
        if f x > f b then (x, alookup scores x) else (b, alookup scores b) := by
      unfold tunerSelStep
      rw [hb, hx]
      simp [optGT]
    have harg : argmaxFold f b (x :: xs) =
        argmaxFold f (if f x > f b then x else b) xs := rfl
    rw [List.foldl_cons, hstep, harg]
    by_cases h : f x > f b
    · rw [if_pos h, if_pos h]
      exact ih x hx (fun m hm => hrest m (List.mem_cons_of_mem _ hm))
    · rw [if_neg h, if_neg h]
      exact ih b hb (fun m hm => hrest m (List.mem_cons_of_mem _ hm))

theorem pyMaxKey_map_spec (f : μ → ℚ) (m0 : μ) (rest : List μ) :
    ∃ m, pyMaxKey ((m0 :: rest).map (fun m2 => (m2, f m2))) = some m ∧
      m ∈ m0 :: rest ∧ (∀ m2 ∈ m0 :: rest, f m2 ≤ f m) ∧
      (m0 :: rest).find? (fun m2 => decide (f m2 = f m)) = some m := by
  obtain ⟨hmem, hmax, hfind⟩ := argmaxFold_spec f rest m0
  refine ⟨argmaxFold f m0 rest, ?_, hmem, hmax, ?_⟩
  · rw [List.map_cons]
    show some ((List.foldl (fun best x => if x.2 > best.2 then x else best)
        (m0, f m0) (List.map (fun m2 => (m2, f m2)) rest)).1)
      = some (argmaxFold f m0 rest)
    rw [pyMaxFold_map]
  · have hcong : (m0 :: rest).find?
        (fun m2 => decide (f m2 = f (argmaxFold f m0 rest)))
        = (m0 :: rest).find?
          (fun m2 => decide (f (argmaxFold f m0 rest) ≤ f m2)) := by
      refine find?_congr_mem _ _ _ ?_
      intro x hxm
      by_cases hh : f x = f (argmaxFold f m0 rest)
      · simp [hh]
      · have hlt : ¬ f (argmaxFold f m0 rest) ≤ f x :=
          fun hge => hh (le_antisymm (hmax x hxm) hge)
        simp [hh, hlt]
    rw [hcong]
    exact hfind

theorem map_congr_mem (l : List α) (f g : α → β) (h : ∀ x ∈ l, f x = g x) :
    l.map f = l.map g := by
  induction l with
  | nil => rfl
  | cons x xs ih =>
    rw [List.map_cons, List.map_cons, h x (List.mem_cons_self _ _),
      ih (fun y hy => h y (List.mem_cons_of_mem _ hy))]

/-- Claim C3: for every engine with a non-empty (duplicate-free) declared mode
list, both `FeedbackLayerDemo.select_mode` and `ArchetypeTunerDemo.select_mode`
return a declared mode of maximal score, and on ties the first such mode in
declared construction order (`find?` over the declared list); with empty
active weights the first declared mode is returned. -/
theorem select_mode_first_argmax {μ τ : Type} [DecidableEq μ] [DecidableEq τ] :
    (∀ (e : FeedbackLayerDemo μ τ) (active : PDict τ ℚ),
      e.modes ≠ [] → e.modes.Nodup →
      ∃ m, select_mode e active = some m ∧ m ∈ e.modes ∧
        (∀ m2 ∈ e.modes, score_of e active m2 ≤ score_of e active m) ∧
        e.modes.find?
          (fun m2 => decide (score_of e active m2 = score_of e active m)) = some m ∧
        (active = [] → some m = e.modes.head?)) ∧
    (∀ (e : ArchetypeTunerDemo μ τ) (toks : List τ) (weights : PDict τ ℚ),
      e.modes ≠ [] → e.modes.Nodup →
      ∃ m, tuner_select_mode e toks weights = some m ∧ m ∈ e.modes ∧
        (∀ m2 ∈ e.modes,
          tunerScore e toks weights m2 ≤ tunerScore e toks weights m) ∧
        e.modes.find?
          (fun m2 => decide (tunerScore e toks weights m2 = tunerScore e toks weights m))
          = some m ∧
        (toks = [] → some m = e.modes.head?)) := by
  constructor
  · intro e active hne hnd
    obtain ⟨m0, rest, hms⟩ := List.exists_cons_of_ne_nil hne
    have hsel : select_mode e active =
        pyMaxKey ((m0 :: rest).map (fun m2 => (m2, score_of e active m2))) := by
      unfold select_mode
      rw [score_modes_eq_map e active hnd, hms]
    obtain ⟨m, h1, h2, h3, h4⟩ := pyMaxKey_map_spec (score_of e active) m0 rest
    refine ⟨m, by rw [hsel]; exact h1, by rw [hms]; exact h2, ?_, ?_, ?_⟩
    · intro m2 hm2
      rw [hms] at hm2
      exact h3 m2 hm2
    · rw [hms]
      exact h4
    · intro ha
      subst ha
      have hz : ∀ m2 : μ, score_of e [] m2 = 0 := fun _ => rfl
      have hp : (fun m2 => decide (score_of e [] m2 = score_of e [] m)) m0 = true := by
        simp [hz]
      have h5 : (m0 :: rest).find?
          (fun m2 => decide (score_of e [] m2 = score_of e [] m)) = some m0 :=
        List.find?_cons_of_pos _ hp
      have h6 : some m0 = some m := h5.symm.trans h4
      rw [hms]
      exact h6.symm
  · intro e toks weights hne hnd
    obtain ⟨m0, rest, hms⟩ := List.exists_cons_of_ne_nil hne
    have hm0 : m0 ∈ e.modes := by rw [hms]; exact List.mem_cons_self _ _
    have hlk : ∀ m ∈ e.modes,
        alookup (tuner_score_modes e toks weights) m =
          some (tunerScore e toks weights m) := by
      intro m hm
      have h := tuner_score_modes_alookup e toks weights hnd m hm
      unfold tunerScore
      rw [h]
      rfl
    have hsel : tuner_select_mode e toks weights =
        some ((rest.foldl (tunerSelStep (tuner_score_modes e toks weights))
          (m0, alookup (tuner_score_modes e toks weights) m0)).1) := by
      unfold tuner_select_mode
      rw [hms]
    rw [tunerSelFold_argmax (tuner_score_modes e toks weights)
      (tunerScore e toks weights) rest m0 (hlk m0 hm0)
      (fun m hm => hlk m (by rw [hms]; exact List.mem_cons_of_mem _ hm))] at hsel
    obtain ⟨hmem, hmax, hfind⟩ := argmaxFold_spec (tunerScore e toks weights) rest m0
    have hcong : (m0 :: rest).find?
        (fun m2 => decide (tunerScore e toks weights m2
          = tunerScore e toks weights (argmaxFold (tunerScore e toks weights) m0 rest)))
        = (m0 :: rest).find?
          (fun m2 => decide (tunerScore e toks weights
            (argmaxFold (tunerScore e toks weights) m0 rest) ≤ tunerScore e toks weights m2)) := by
      refine find?_congr_mem _ _ _ ?_
      intro x hxm
      by_cases hh : tunerScore e toks weights x
          = tunerScore e toks weights (argmaxFold (tunerScore e toks weights) m0 rest)
      · simp [hh]
      · have hlt : ¬ tunerScore e toks weights
            (argmaxFold (tunerScore e toks weights) m0 rest) ≤ tunerScore e toks weights x :=
          fun hge => hh (le_antisymm (hmax x hxm) hge)
        simp [hh, hlt]
    refine ⟨argmaxFold (tunerScore e toks weights) m0 rest, hsel,
      by rw [hms]; exact hmem, ?_, ?_, ?_⟩
    · intro m2 hm2
      rw [hms] at hm2
      exact hmax m2 hm2
    · rw [hms, hcong]
      exact hfind
    · intro ht
      subst ht
      have hz : ∀ m2 : μ, tunerScore e [] weights m2 = 0 := by
        intro m2
        unfold tunerScore tuner_score_modes
        rw [List.foldl_nil, alookup_foldl_aset _ (fun _ => (0:ℚ))]
        by_cases h : m2 ∈ e.modes
        · rw [if_pos h]; rfl
        · rw [if_neg h]; rfl
      have hp : (fun m2 => decide (tunerScore e [] weights m2
          = tunerScore e [] weights (argmaxFold (tunerScore e [] weights) m0 rest))) m0
            = true := by
        simp [hz]
      have h5 : (m0 :: rest).find?
          (fun m2 => decide (tunerScore e [] weights m2
            = tunerScore e [] weights (argmaxFold (tunerScore e [] weights) m0 rest)))
          = some m0 := List.find?_cons_of_pos _ hp
      have h6 : some m0 = some (argmaxFold (tunerScore e [] weights) m0 rest) :=
        h5.symm.trans (hcong.trans hfind)
      rw [hms]
      exact h6.symm

/-- Claim C4: for every table state and active-weight map with values in
`[0, 1]`, scoring is total and returns, for each declared mode, exactly the sum
`Σ_t beta[m][t] * active_weights[t]` with absent β entries defaulting to `0.0`
(so absent tokens and zero-weight tokens contribute nothing). The tuner variant
requires duplicate-free declared modes (Python guarantees this through its
`{m: 0.0 for m in modes}` dict). -/
theorem score_modes_formula {μ τ : Type} [DecidableEq μ] [DecidableEq τ] :
    (∀ (e : FeedbackLayerDemo μ τ) (active : PDict τ ℚ),
      (∀ iw ∈ active, 0 ≤ iw.2 ∧ iw.2 ≤ 1) →
      ∀ m ∈ e.modes, alookup (score_modes e active) m =
        some ((active.map (fun iw =>
          (alookup ((alookup e.beta m).getD []) iw.1).getD 0 * iw.2)).sum)) ∧
    (∀ (e : ArchetypeTunerDemo μ τ) (toks : List τ) (weights : PDict τ ℚ),
      e.modes.Nodup → (∀ kv ∈ weights, 0 ≤ kv.2 ∧ kv.2 ≤ 1) →
      ∀ m ∈ e.modes, alookup (tuner_score_modes e toks weights) m =
        some ((toks.map (fun t =>
          (alookup e.beta (m, t)).getD 0 * (alookup weights t).getD 0)).sum)) := by
  constructor
  · intro e active _hvals m hm
    rw [score_modes_alookup, if_pos hm, score_of_eq_sum]
  · intro e toks weights hnd hvals m hm
    rw [tuner_score_modes_alookup e toks weights hnd m hm]
    have hmap : toks.map (tunerContrib e weights m)
        = toks.map (fun t =>
            (alookup e.beta (m, t)).getD 0 * (alookup weights t).getD 0) := by
      refine map_congr_mem _ _ _ ?_
      intro t _
      unfold tunerContrib
      by_cases hw : (alookup weights t).getD 0 ≤ 0
      · have hz : (alookup weights t).getD 0 = 0 := by
          cases hl : alookup weights t with
          | none => rfl
          | some v =>
            have h0 : 0 ≤ v := (hvals (t, v) (alookup_mem _ _ _ hl)).1
            have h1 : v ≤ 0 := by simpa [hl] using hw
            simp [hl, le_antisymm h1 h0]
        rw [if_pos hw, hz]
      · rw [if_neg hw]
    rw [hmap]

theorem select_mode_first_argmax_witness :
    (∃ m, select_mode testE [("Demo-Panic", (1:ℚ))] = some m ∧ m ∈ testE.modes ∧
      (∀ m2 ∈ testE.modes, score_of testE [("Demo-Panic", (1:ℚ))] m2
        ≤ score_of testE [("Demo-Panic", (1:ℚ))] m) ∧
      testE.modes.find?
        (fun m2 => decide (score_of testE [("Demo-Panic", (1:ℚ))] m2
          = score_of testE [("Demo-Panic", (1:ℚ))] m)) = some m ∧
      ([("Demo-Panic", (1:ℚ))] = ([] : PDict String ℚ) → some m = testE.modes.head?)) ∧
    (∃ m, tuner_select_mode testT ["therapy-drift"] [("therapy-drift", (1:ℚ))] = some m ∧
      m ∈ testT.modes ∧
      (∀ m2 ∈ testT.modes, tunerScore testT ["therapy-drift"] [("therapy-drift", (1:ℚ))] m2
        ≤ tunerScore testT ["therapy-drift"] [("therapy-drift", (1:ℚ))] m) ∧
      testT.modes.find?
        (fun m2 => decide (tunerScore testT ["therapy-drift"] [("therapy-drift", (1:ℚ))] m2
          = tunerScore testT ["therapy-drift"] [("therapy-drift", (1:ℚ))] m)) = some m ∧
      (["therapy-drift"] = ([] : List String) → some m = testT.modes.head?)) :=
  ⟨select_mode_first_argmax.1 testE [("Demo-Panic", (1:ℚ))] (by decide) (by decide),
   select_mode_first_argmax.2 testT ["therapy-drift"] [("therapy-drift", (1:ℚ))]
     (by decide) (by decide)⟩

theorem score_modes_formula_witness :
    (alookup (score_modes testE [("Demo-Panic", (1:ℚ))]) "soft" =
      some (([("Demo-Panic", (1:ℚ))].map (fun iw =>
        (alookup ((alookup testE.beta "soft").getD []) iw.1).getD 0 * iw.2)).sum)) ∧
    (alookup (tuner_score_modes testT ["ignored-wants"] [("ignored-wants", (1:ℚ))]) "LENIENT" =
      some ((["ignored-wants"].map (fun t =>
        (alookup testT.beta ("LENIENT", t)).getD 0 *
          (alookup [("ignored-wants", (1:ℚ))] t).getD 0)).sum)) :=
  ⟨score_modes_formula.1 testE [("Demo-Panic", (1:ℚ))] (by decide) "soft" (by decide),
   score_modes_formula.2 testT ["ignored-wants"] [("ignored-wants", (1:ℚ))]
     (by decide) (by decide) "LENIENT" (by decide)⟩

theorem updateInv_eq [DecidableEq τ] (cmin cmax : ℚ) (r : PDict τ ℚ) (inv : τ)
    (delta : ℚ) :
    updateInv cmin cmax r inv delta =
      aset r inv (pyClamp cmin cmax ((alookup r inv).getD 0 + delta)) := by
  unfold updateInv pyClamp
  by_cases h1 : (alookup r inv).getD 0 + delta < cmin
  · rw [if_pos h1, if_pos h1, aset_aset_self]
  · rw [if_neg h1, if_neg h1]
    by_cases h2 : (alookup r inv).getD 0 + delta > cmax
    · rw [if_pos h2, if_pos h2, aset_aset_self]
    · rw [if_neg h2, if_neg h2]

theorem updateInv_fold_frame [DecidableEq τ] (cmin cmax c : ℚ)
    (l : PDict τ ℚ) (r0 : PDict τ ℚ) (t : τ) (ht : t ∉ l.map Prod.fst) :
    alookup (l.foldl (fun r iw => updateInv cmin cmax r iw.1 (c * iw.2)) r0) t =
      alookup r0 t := by
  induction l generalizing r0 with
  | nil => rfl
  | cons iw l ih =>
    rw [List.map_cons] at ht
    have h1 : t ≠ iw.1 := fun he => ht (he ▸ List.mem_cons_self _ _)
    have h2 : t ∉ l.map Prod.fst := fun hh => ht (List.mem_cons_of_mem _ hh)
    rw [List.foldl_cons, ih _ h2, updateInv_eq, alookup_aset_ne _ _ _ _ h1]

theorem updateInv_fold_alookup [DecidableEq τ] (cmin cmax c : ℚ)
    (l : PDict τ ℚ) (r0 : PDict τ ℚ) (t : τ) (w : ℚ)
    (hnd : (l.map Prod.fst).Nodup) (hmem : (t, w) ∈ l) :
    alookup (l.foldl (fun r iw => updateInv cmin cmax r iw.1 (c * iw.2)) r0) t =
      some (pyClamp cmin cmax ((alookup r0 t).getD 0 + c * w)) := by
  induction l generalizing r0 with
  | nil => exact absurd hmem (List.not_mem_nil _)
  | cons iw l ih =>
    rw [List.map_cons, List.nodup_cons] at hnd
    rcases List.mem_cons.mp hmem with h | h
    · subst h
      rw [List.foldl_cons, updateInv_fold_frame _ _ _ _ _ _ hnd.1,
        updateInv_eq, alookup_aset_self]
    · have hne : t ≠ iw.1 := by
        intro he
        exact hnd.1 (he ▸ List.mem_map_of_mem Prod.fst h)
      rw [List.foldl_cons, ih _ hnd.2 h, updateInv_eq,
        alookup_aset_ne _ _ _ _ hne]

theorem updateInv_fold_isSome [DecidableEq τ] (cmin cmax c : ℚ)
    (l : PDict τ ℚ) (r0 : PDict τ ℚ) (t : τ) (ht : t ∈ l.map Prod.fst) :
    (alookup (l.foldl (fun r iw => updateInv cmin cmax r iw.1 (c * iw.2)) r0) t).isSome := by
  induction l generalizing r0 with
  | nil => exact absurd ht (List.not_mem_nil _)
  | cons iw l ih =>
    rw [List.foldl_cons]
    by_cases h : t ∈ l.map Prod.fst
    · exact ih _ h
    · rw [List.map_cons] at ht
      have he : t = iw.1 := by
        rcases List.mem_cons.mp ht with h2 | h2
        · exact h2
        · exact absurd h2 h
      rw [updateInv_fold_frame _ _ _ _ _ _ h, updateInv_eq, he, alookup_aset_self]
      rfl

theorem tuner_fold_frame [DecidableEq μ] [DecidableEq τ] (a : ℚ) (mode : μ)
    (toks : List τ) (b0 : PDict (μ × τ) ℚ) (p : μ × τ)
    (hp : ∀ tok ∈ toks, p ≠ (mode, tok)) :
    alookup (toks.foldl (fun b tok =>
      aset b (mode, tok) ((alookup b (mode, tok)).getD 0 + a)) b0) p = alookup b0 p := by
  induction toks generalizing b0 with
  | nil => rfl
  | cons tok toks ih
  =>
    rw [List.foldl_cons, ih _ (fun x hx => hp x (List.mem_cons_of_mem _ hx)),
      alookup_aset_ne _ _ _ _ (hp tok (List.mem_cons_self _ _))]

theorem tuner_fold_alookup [DecidableEq μ] [DecidableEq τ] (a : ℚ) (mode : μ)
    (toks : List τ) (b0 : PDict (μ × τ) ℚ) (t : τ)
    (hnd : toks.Nodup) (hmem : t ∈ toks) :
    alookup (toks.foldl (fun b tok =>
      aset b (mode, tok) ((alookup b (mode, tok)).getD 0 + a)) b0) (mode, t) =
      some ((alookup b0 (mode, t)).getD 0 + a) := by
  induction toks generalizing b0 with
  | nil => exact absurd hmem (List.not_mem_nil _)
  | cons tok toks ih =>
    rw [List.nodup_cons] at hnd
    rcases List.mem_cons.mp hmem with h | h
    · subst h
      rw [List.foldl_cons,
        tuner_fold_frame _ _ _ _ _ (fun x hx he =>
          hnd.1 (by rw [Prod.mk.injEq] at he; rw [he.2]; exact hx)),
        alookup_aset_self]
    · have hne : (mode, t) ≠ (mode, tok) := by
        intro he
        rw [Prod.mk.injEq] at he
        exact hnd.1 (he.2 ▸ h)
      rw [List.foldl_cons, ih _ hnd.2 h, alookup_aset_ne _ _ _ _ hne]

/-- Claim C1 (amended): with nonzero reward, `FeedbackLayerDemo.apply_feedback`
sets `beta[mode][token]` to the old value (default `0.0`) plus
`learning_rate * reward * weight`, hard-clamped to `[clamp_min, clamp_max]`;
`ArchetypeTunerDemo.apply_feedback` takes a token **set** and ignores any
per-token weight: it sets `beta[(mode, token)]` to the old value plus
`learning_rate * reward` (then clamps every stored entry). -/
theorem apply_feedback_delta {μ τ : Type} [DecidableEq μ] [DecidableEq τ] :
    (∀ (e : FeedbackLayerDemo μ τ) (mode : μ) (row : PDict τ ℚ)
        (engraved : PDict τ ℚ) (reward : ℚ) (t : τ) (w : ℚ),
      reward ≠ 0 → alookup e.beta mode = some row →
      (engraved.map Prod.fst).Nodup → (t, w) ∈ engraved →
      bget (apply_feedback e mode engraved reward).beta mode t =
        some (pyClamp e.clamp_min e.clamp_max
          ((alookup row t).getD 0 + e.learning_rate * reward * w))) ∧
    (∀ (e : ArchetypeTunerDemo μ τ) (mode : μ) (toks : List τ) (reward : ℚ) (t : τ),
      reward ≠ 0 → toks.Nodup → t ∈ toks →
      alookup (tuner_apply_feedback e mode toks reward).beta (mode, t) =
        some (pyClamp e.clamp_min e.clamp_max
          ((alookup e.beta (mode, t)).getD 0 + e.learning_rate * reward))) := by
  constructor
  · intro e mode row engraved reward t w hr hrow hnd hmem
    unfold apply_feedback bget
    rw [if_neg hr]
    simp only [hrow]
    rw [alookup_aset_self]
    simp only [Option.some_bind]
    exact updateInv_fold_alookup e.clamp_min e.clamp_max
      (e.learning_rate * reward) engraved row t w hnd hmem
  · intro e mode toks reward t hr hnd hmem
    unfold tuner_apply_feedback
    rw [if_neg hr]
    simp only []
    rw [alookup_map_val, tuner_fold_alookup _ _ _ _ _ hnd hmem]
    rfl

theorem apply_feedback_delta_witness :
    bget (apply_feedback testE "soft" [("Demo-Panic", (1:ℚ))] 1).beta "soft" "Demo-Panic" =
      some (pyClamp testE.clamp_min testE.clamp_max
        ((alookup [("Demo-Panic", (0:ℚ)), ("Demo-Focus", 0), ("Demo-Sad", 0),
          ("Demo-Playful", 0)] "Demo-Panic").getD 0 + testE.learning_rate * 1 * 1)) ∧
    alookup (tuner_apply_feedback testT "STRICT" ["therapy-drift"] 1).beta
        ("STRICT", "therapy-drift") =
      some (pyClamp testT.clamp_min testT.clamp_max
        ((alookup testT.beta ("STRICT", "therapy-drift")).getD 0 +
          testT.learning_rate * 1)) :=
  ⟨apply_feedback_delta.1 testE "soft"
      [("Demo-Panic", (0:ℚ)), ("Demo-Focus", 0), ("Demo-Sad", 0), ("Demo-Playful", 0)]
      [("Demo-Panic", (1:ℚ))] 1 "Demo-Panic" 1 (by norm_num)
      (by simp [testE, mkFeedbackLayerDemo, initBeta, initEnsure, initRow, alookup, aset]) (by decide)
      (by decide),
   apply_feedback_delta.2 testT "STRICT" ["therapy-drift"] 1 "therapy-drift"
     (by norm_num) (by decide) (by decide)⟩

def cxT : ArchetypeTunerDemo String String :=
  mkArchetypeTunerDemo ["M"] (1/10) (-2) 2 false

/-- Counterexample to claim C1 as stated: `ArchetypeTunerDemo.apply_feedback`
ignores the engraved per-token weight. With `learning_rate = 0.1`,
`reward = 1.0` and engraved weight `0.5` for token `"tok"`, the claim predicts
the stored value `0.05`; the code stores `0.1`. -/
theorem tuner_apply_ignores_weight :
    alookup (tuner_apply_feedback cxT "M" ["tok"] 1).beta ("M", "tok") = some (1/10) ∧
    ¬ ((1:ℚ)/10 = pyClamp cxT.clamp_min cxT.clamp_max
      ((alookup cxT.beta ("M", "tok")).getD 0 + cxT.learning_rate * 1 * (1/2))) := by
  constructor
  · simp [cxT, mkArchetypeTunerDemo, tuner_apply_feedback, alookup, aset, pyClamp] <;>
      norm_num [cxT, mkArchetypeTunerDemo, tuner_apply_feedback, alookup, aset, pyClamp]
  · norm_num [cxT, mkArchetypeTunerDemo, alookup, pyClamp]

theorem tuner_apply_untouched [DecidableEq μ] [DecidableEq τ]
    (e : ArchetypeTunerDemo μ τ) (mode : μ) (toks : List τ) (reward : ℚ)
    (p : μ × τ) (hr : reward ≠ 0) (hor : p.1 ≠ mode ∨ p.2 ∉ toks) :
    alookup (tuner_apply_feedback e mode toks reward).beta p =
      (alookup e.beta p).map (pyClamp e.clamp_min e.clamp_max) := by
  unfold tuner_apply_feedback
  rw [if_neg hr]
  simp only []
  rw [alookup_map_val]
  rw [tuner_fold_frame _ _ _ _ _ (fun tok htok he => by
    rcases hor with h | h
    · exact h (by rw [he])
    · exact h (by rw [he]; exact htok))]

/-- Claim C6 (amended): `FeedbackLayerDemo.apply_feedback` modifies at most the
entries `(mode_used, t)` for engraved tokens `t`; any other pair keeps its
exact prior value. `ArchetypeTunerDemo.apply_feedback` with nonzero reward
additionally clamps **every** stored entry, so an untouched pair's value `v`
becomes `clamp(v)` (unchanged exactly when it was already inside
`[clamp_min, clamp_max]`). -/
theorem apply_feedback_frame {μ τ : Type} [DecidableEq μ] [DecidableEq τ] :
    (∀ (e : FeedbackLayerDemo μ τ) (mode : μ) (engraved : PDict τ ℚ)
        (reward : ℚ) (m : μ) (t : τ),
      (m ≠ mode ∨ t ∉ engraved.map Prod.fst) →
      bget (apply_feedback e mode engraved reward).beta m t = bget e.beta m t) ∧
    (∀ (e : ArchetypeTunerDemo μ τ) (mode : μ) (toks : List τ) (reward : ℚ)
        (p : μ × τ),
      reward ≠ 0 → (p.1 ≠ mode ∨ p.2 ∉ toks) →
      alookup (tuner_apply_feedback e mode toks reward).beta p =
        (alookup e.beta p).map (pyClamp e.clamp_min e.clamp_max)) ∧
    (∀ (e : ArchetypeTunerDemo μ τ) (mode : μ) (toks : List τ) (reward : ℚ)
        (p : μ × τ) (v : ℚ),
      (p.1 ≠ mode ∨ p.2 ∉ toks) → alookup e.beta p = some v →
      e.clamp_min ≤ v → v ≤ e.clamp_max →
      alookup (tuner_apply_feedback e mode toks reward).beta p = some v) := by
  refine ⟨?_, ?_, ?_⟩
  · intro e mode engraved reward m t hor
    unfold apply_feedback bget
    by_cases hr : reward = 0
    · rw [if_pos hr]
    · rw [if_neg hr]
      cases hrow : alookup e.beta mode with
      | none => rfl
      | some row =>
        rcases hor with hm | ht
        · rw [alookup_aset_ne _ _ _ _ hm]
        · by_cases hm : m = mode
          · subst hm
            rw [alookup_aset_self, hrow]
            simp only [Option.some_bind]
            exact updateInv_fold_frame _ _ _ _ _ _ ht
          · rw [alookup_aset_ne _ _ _ _ hm]
  · intro e mode toks reward p hr hor
    exact tuner_apply_untouched e mode toks reward p hr hor
  · intro e mode toks reward p v hor hv h1 h2
    by_cases hr : reward = 0
    · rw [show tuner_apply_feedback e mode toks reward = e from by
        unfold tuner_apply_feedback; rw [if_pos hr]]
      exact hv
    · rw [tuner_apply_untouched e mode toks reward p hr hor, hv]
      rw [Option.map_some']
      rw [pyClamp_id _ _ _ h1 h2]

theorem apply_feedback_frame_witness :
    bget (apply_feedback testE "soft" [("Demo-Panic", (1:ℚ))] 1).beta "direct" "Demo-Panic" =
      bget testE.beta "direct" "Demo-Panic" ∧
    alookup (tuner_apply_feedback testT "STRICT" ["therapy-drift"] 1).beta
        ("BALANCED", "ignored-wants") =
      (alookup testT.beta ("BALANCED", "ignored-wants")).map
        (pyClamp testT.clamp_min testT.clamp_max) ∧
    alookup (tuner_apply_feedback testT "STRICT" ["therapy-drift"] 1).beta
        ("BALANCED", "ignored-wants") = some (3/10) :=
  ⟨apply_feedback_frame.1 testE "soft" [("Demo-Panic", (1:ℚ))] 1 "direct" "Demo-Panic"
      (Or.inl (by decide)),
   apply_feedback_frame.2.1 testT "STRICT" ["therapy-drift"] 1
      ("BALANCED", "ignored-wants") (by norm_num) (Or.inl (by decide)),
   apply_feedback_frame.2.2 testT "STRICT" ["therapy-drift"] 1
      ("BALANCED", "ignored-wants") (3/10) (Or.inl (by decide))
      (by simp [testT, alookup]) (by norm_num [testT]) (by norm_num [testT])⟩

def cx6 : ArchetypeTunerDemo String String :=
  { modes := ["A", "B"]
    beta := [(("A", "x"), 5)]
    learning_rate := 1/10
    clamp_min := -2
    clamp_max := 2
    verbose := false }

/-- Counterexample to claim C6 as stated: the tuner's `apply_feedback` clamps
**all** stored entries, so an out-of-range value on pair `("A","x")` is brought
into range by an apply call on the unrelated pair `("B","y")` — the untouched
entry does not keep its prior value `5.0`. -/
theorem tuner_apply_clamps_untouched :
    alookup (tuner_apply_feedback cx6 "B" ["y"] 1).beta ("A", "x") = some 2 ∧
    ¬ ((2:ℚ) = 5) := by
  constructor
  · simp [cx6, tuner_apply_feedback, alookup, aset, pyClamp] <;>
      norm_num [cx6, tuner_apply_feedback, alookup, aset, pyClamp]
  · norm_num

theorem tuner_fold_isSome [DecidableEq μ] [DecidableEq τ] (a : ℚ) (mode : μ)
    (toks : List τ) (b0 : PDict (μ × τ) ℚ) (t : τ) (hmem : t ∈ toks) :
    (alookup (toks.foldl (fun b tok =>
      aset b (mode, tok) ((alookup b (mode, tok)).getD 0 + a)) b0) (mode, t)).isSome := by
  induction toks generalizing b0 with
  | nil => exact absurd hmem (List.not_mem_nil _)
  | cons tok toks ih =>
    rw [List.foldl_cons]
    by_cases h : t ∈ toks
    · exact ih _ h
    · have he : t = tok := by
        rcases List.mem_cons.mp hmem with h2 | h2
        · exact h2
        · exact absurd h2 h
      rw [tuner_fold_frame _ _ _ _ _ (fun x hx hee => by
        rw [Prod.mk.injEq] at hee
        exact h (hee.2 ▸ hx)), he, alookup_aset_self]
      rfl

/-- Claim C8 (amended): both engines implement only the OPEN materialization
policy — an `apply_feedback` write with nonzero reward to any token, declared
or not, always materializes/updates the entry, whatever the constructor
parameters (including `verbose`); no STRICT vocabulary check exists in the
code. -/
theorem open_materialization {μ τ : Type} [DecidableEq μ] [DecidableEq τ] :
    (∀ (e : FeedbackLayerDemo μ τ) (mode : μ) (row : PDict τ ℚ)
        (engraved : PDict τ ℚ) (reward : ℚ) (t : τ),
      reward ≠ 0 → alookup e.beta mode = some row → t ∈ engraved.map Prod.fst →
      (bget (apply_feedback e mode engraved reward).beta mode t).isSome) ∧
    (∀ (e : ArchetypeTunerDemo μ τ) (mode : μ) (toks : List τ) (reward : ℚ) (t : τ),
      reward ≠ 0 → t ∈ toks →
      (alookup (tuner_apply_feedback e mode toks reward).beta (mode, t)).isSome) := by
  constructor
  · intro e mode row engraved reward t hr hrow ht
    unfold apply_feedback bget
    rw [if_neg hr]
    simp only [hrow]
    rw [alookup_aset_self]
    simp only [Option.some_bind]
    exact updateInv_fold_isSome _ _ _ _ _ _ ht
  · intro e mode toks reward t hr hmem
    unfold tuner_apply_feedback
    rw [if_neg hr]
    simp only []
    rw [alookup_map_val]
    have h := tuner_fold_isSome (e.learning_rate * reward) mode toks e.beta t hmem
    obtain ⟨v, hv⟩ := Option.isSome_iff_exists.mp h
    rw [hv]
    rfl

def e8f : FeedbackLayerDemo String String :=
  mkFeedbackLayerDemo ["a"] ["m"] (1/5) (-1) 1 false

def t8f : ArchetypeTunerDemo String String :=
  mkArchetypeTunerDemo ["M"] (1/10) (-2) 2 false

def e8t : FeedbackLayerDemo String String :=
  mkFeedbackLayerDemo ["a"] ["m"] (1/5) (-1) 1 true

def t8t : ArchetypeTunerDemo String String :=
  mkArchetypeTunerDemo ["M"] (1/10) (-2) 2 true

/-- Counterexample to claim C8 as stated: a write that references token `"b"`,
which lies outside the declared vocabulary (`invariants = ["a"]`; the tuner
declares no token vocabulary at all), mutates the table under **every**
configuration the constructors offer (`verbose` true and false, both engines) —
no STRICT policy under which the pair is skipped is selectable. -/
theorem strict_policy_absent :
    bget (apply_feedback e8t "m" [("b", (1:ℚ))] 1).beta "m" "b" = some (1/5) ∧
    bget (apply_feedback e8f "m" [("b", (1:ℚ))] 1).beta "m" "b" = some (1/5) ∧
    alookup (tuner_apply_feedback t8t "M" ["b"] 1).beta ("M", "b") = some (1/10) ∧
    alookup (tuner_apply_feedback t8f "M" ["b"] 1).beta ("M", "b") = some (1/10) := by
  have hab : ¬ ("a" : String) = "b" := by decide
  refine ⟨?_, ?_, ?_, ?_⟩ <;>
    simp [e8t, e8f, t8t, t8f, mkFeedbackLayerDemo, mkArchetypeTunerDemo, initBeta,
      initRow, apply_feedback, tuner_apply_feedback, updateInv, bget, alookup, aset,
      pyClamp, hab] <;>
    norm_num [e8t, e8f, t8t, t8f, mkFeedbackLayerDemo, mkArchetypeTunerDemo, initBeta,
      initRow, apply_feedback, tuner_apply_feedback, updateInv, bget, alookup, aset,
      pyClamp, hab]

theorem open_materialization_witness :
    (bget (apply_feedback e8t "m" [("b", (1:ℚ))] 1).beta "m" "b").isSome ∧
    (alookup (tuner_apply_feedback t8t "M" ["b"] 1).beta ("M", "b")).isSome :=
  ⟨open_materialization.1 e8t "m" [("a", (0:ℚ))] [("b", (1:ℚ))] 1 "b" (by norm_num)
      (by simp [e8t, mkFeedbackLayerDemo, initBeta, initEnsure, initRow, alookup, aset]) (by decide),
   open_materialization.2 t8t "M" ["b"] 1 "b" (by norm_num) (by decide)⟩

/-- All stored weights of a nested β table lie in `[cmin, cmax]`. -/
def betaInRange (cmin cmax : ℚ) (b : PDict μ (PDict τ ℚ)) : Prop :=
  ∀ kv ∈ b, ∀ iv ∈ kv.2, cmin ≤ iv.2 ∧ iv.2 ≤ cmax

/-- All stored weights of a flat β table lie in `[cmin, cmax]`. -/
def flatInRange (cmin cmax : ℚ) (b : PDict (μ × τ) ℚ) : Prop :=
  ∀ kv ∈ b, cmin ≤ kv.2 ∧ kv.2 ≤ cmax

theorem initRow_zeros [DecidableEq τ] (invs : List τ) (row : PDict τ ℚ)
    (h : ∀ iv ∈ row, iv.2 = 0) : ∀ iv ∈ initRow invs row, iv.2 = 0 := by
  unfold initRow
  induction invs generalizing row with
  | nil => exact h
  | cons inv invs ih =>
    rw [List.foldl_cons]
    cases hl : alookup row inv with
    | some v => exact ih _ h
    | none =>
      refine ih _ ?_
      intro iv hiv
      rcases List.mem_append.mp hiv with h2 | h2
      · exact h iv h2
      · rw [List.mem_singleton.mp h2]

theorem initEnsure_zeros [DecidableEq μ] [DecidableEq τ]
    (b : PDict μ (PDict τ ℚ)) (m : μ)
    (h : ∀ kv ∈ b, ∀ iv ∈ kv.2, (iv.2 : ℚ) = 0) :
    ∀ kv ∈ initEnsure b m, ∀ iv ∈ kv.2, iv.2 = 0 := by
  unfold initEnsure
  cases hl : alookup b m with
  | some v => exact h
  | none =>
    intro kv hkv
    rcases List.mem_append.mp hkv with h2 | h2
    · exact h kv h2
    · rw [List.mem_singleton.mp h2]
      intro iv hiv
      exact absurd hiv (List.not_mem_nil iv)

theorem initBeta_zeros [DecidableEq μ] [DecidableEq τ] (modes : List μ)
    (invs : List τ) (b : PDict μ (PDict τ ℚ))
    (h : ∀ kv ∈ b, ∀ iv ∈ kv.2, iv.2 = 0) :
    ∀ kv ∈ initBeta modes invs b, ∀ iv ∈ kv.2, iv.2 = 0 := by
  unfold initBeta
  induction modes generalizing b with
  | nil => exact h
  | cons m modes ih =>
    rw [List.foldl_cons]
    refine ih _ ?_
    have hb1 := initEnsure_zeros b m h
    intro kv hkv
    rcases mem_aset _ _ _ _ hkv with h2 | h2
    · exact hb1 kv h2
    · rw [h2]
      refine initRow_zeros _ _ ?_
      cases hl : alookup (initEnsure b m) m with
      | none =>
        intro iv hiv
        simp at hiv
      | some r =>
        exact hb1 _ (alookup_mem _ _ _ hl)

theorem updateInv_fold_range [DecidableEq τ] (cmin cmax c : ℚ)
    (hcc : cmin ≤ cmax) (l : PDict τ ℚ) (row : PDict τ ℚ)
    (h : ∀ iv ∈ row, cmin ≤ iv.2 ∧ iv.2 ≤ cmax) :
    ∀ iv ∈ l.foldl (fun r iw => updateInv cmin cmax r iw.1 (c * iw.2)) row,
      cmin ≤ iv.2 ∧ iv.2 ≤ cmax := by
  induction l generalizing row with
  | nil => exact h
  | cons iw l ih =>
    rw [List.foldl_cons]
    refine ih _ ?_
    intro jv hjv
    rw [updateInv_eq] at hjv
    rcases mem_aset _ _ _ _ hjv with h2 | h2
    · exact h jv h2
    · rw [h2]
      exact pyClamp_mem _ _ _ hcc

theorem apply_feedback_clamp_fields [DecidableEq μ] [DecidableEq τ]
    (e : FeedbackLayerDemo μ τ) (m : μ) (x : PDict τ ℚ) (r : ℚ) :
    (apply_feedback e m x r).clamp_min = e.clamp_min ∧
    (apply_feedback e m x r).clamp_max = e.clamp_max := by
  unfold apply_feedback
  by_cases hr : r = 0
  · rw [if_pos hr]; exact ⟨rfl, rfl⟩
  · rw [if_neg hr]
    cases alookup e.beta m with
    | none => exact ⟨rfl, rfl⟩
    | some row => exact ⟨rfl, rfl⟩

theorem tuner_apply_clamp_fields [DecidableEq μ] [DecidableEq τ]
    (e : ArchetypeTunerDemo μ τ) (m : μ) (x : List τ) (r : ℚ) :
    (tuner_apply_feedback e m x r).clamp_min = e.clamp_min ∧
    (tuner_apply_feedback e m x r).clamp_max = e.clamp_max := by
  unfold tuner_apply_feedback
  by_cases hr : r = 0
  · rw [if_pos hr]; exact ⟨rfl, rfl⟩
  · rw [if_neg hr]; exact ⟨rfl, rfl⟩

theorem apply_feedback_range [DecidableEq μ] [DecidableEq τ]
    (e : FeedbackLayerDemo μ τ) (m : μ) (x : PDict τ ℚ) (r : ℚ)
    (hcc : e.clamp_min ≤ e.clamp_max)
    (h : betaInRange e.clamp_min e.clamp_max e.beta) :
    betaInRange e.clamp_min e.clamp_max (apply_feedback e m x r).beta := by
  unfold apply_feedback
  by_cases hr : r = 0
  · rw [if_pos hr]; exact h
  · rw [if_neg hr]
    cases hrow : alookup e.beta m with
    | none => exact h
    | some row =>
      intro kv hkv
      rcases mem_aset _ _ _ _ hkv with h2 | h2
      · exact h kv h2
      · rw [h2]
        exact updateInv_fold_range _ _ _ hcc _ _ (h _ (alookup_mem _ _ _ hrow))

theorem tuner_apply_range [DecidableEq μ] [DecidableEq τ]
    (e : ArchetypeTunerDemo μ τ) (m : μ) (x : List τ) (r : ℚ)
    (hcc : e.clamp_min ≤ e.clamp_max)
    (h : flatInRange e.clamp_min e.clamp_max e.beta) :
    flatInRange e.clamp_min e.clamp_max (tuner_apply_feedback e m x r).beta := by
  unfold tuner_apply_feedback
  by_cases hr : r = 0
  · rw [if_pos hr]; exact h
  · rw [if_neg hr]
    intro kv hkv
    obtain ⟨kv0, _, hkv0⟩ := List.mem_map.mp hkv
    rw [← hkv0]
    exact pyClamp_mem _ _ _ hcc

theorem applySeq_range [DecidableEq μ] [DecidableEq τ]
    (e : FeedbackLayerDemo μ τ) (calls : List (μ × PDict τ ℚ × ℚ))
    (hcc : e.clamp_min ≤ e.clamp_max)
    (h : betaInRange e.clamp_min e.clamp_max e.beta) :
    betaInRange e.clamp_min e.clamp_max (applySeq e calls).beta := by
  induction calls generalizing e with
  | nil => exact h
  | cons c calls ih =>
    unfold applySeq
    rw [List.foldl_cons]
    obtain ⟨hf1, hf2⟩ := apply_feedback_clamp_fields e c.1 c.2.1 c.2.2
    have h2 := ih (apply_feedback e c.1 c.2.1 c.2.2)
      (by rw [hf1, hf2]; exact hcc)
      (by rw [hf1, hf2]; exact apply_feedback_range e c.1 c.2.1 c.2.2 hcc h)
    rw [hf1, hf2] at h2
    exact h2

theorem tunerApplySeq_range [DecidableEq μ] [DecidableEq τ]
    (e : ArchetypeTunerDemo μ τ) (calls : List (μ × List τ × ℚ))
    (hcc : e.clamp_min ≤ e.clamp_max)
    (h : flatInRange e.clamp_min e.clamp_max e.beta) :
    flatInRange e.clamp_min e.clamp_max (tunerApplySeq e calls).beta := by
  induction calls generalizing e with
  | nil => exact h
  | cons c calls ih =>
    unfold tunerApplySeq
    rw [List.foldl_cons]
    obtain ⟨hf1, hf2⟩ := tuner_apply_clamp_fields e c.1 c.2.1 c.2.2
    have h2 := ih (tuner_apply_feedback e c.1 c.2.1 c.2.2)
      (by rw [hf1, hf2]; exact hcc)
      (by rw [hf1, hf2]; exact tuner_apply_range e c.1 c.2.1 c.2.2 hcc h)
    rw [hf1, hf2] at h2
    exact h2

/-- Claim C2: with `clamp_min ≤ 0 ≤ clamp_max`, starting from the
zero-initialised table produced at construction (no seeding), after any finite
sequence of `apply_feedback` calls every stored (and absent-as-`0.0`)
`(mode, token)` weight lies in `[clamp_min, clamp_max]`, for both engines. -/
theorem clamp_invariant {μ τ : Type} [DecidableEq μ] [DecidableEq τ] :
    (∀ (invs : List τ) (modes : List μ) (lr cmin cmax : ℚ) (vb : Bool)
        (calls : List (μ × PDict τ ℚ × ℚ)),
      cmin ≤ 0 → 0 ≤ cmax →
      ∀ (m : μ) (t : τ),
        cmin ≤ (bget (applySeq (mkFeedbackLayerDemo invs modes lr cmin cmax vb)
            calls).beta m t).getD 0 ∧
        (bget (applySeq (mkFeedbackLayerDemo invs modes lr cmin cmax vb)
            calls).beta m t).getD 0 ≤ cmax) ∧
    (∀ (modes : List μ) (lr cmin cmax : ℚ) (vb : Bool)
        (calls : List (μ × List τ × ℚ)),
      cmin ≤ 0 → 0 ≤ cmax →
      ∀ p : μ × τ,
        cmin ≤ (alookup (tunerApplySeq
            (mkArchetypeTunerDemo modes lr cmin cmax vb) calls).beta p).getD 0 ∧
        (alookup (tunerApplySeq
            (mkArchetypeTunerDemo modes lr cmin cmax vb) calls).beta p).getD 0 ≤ cmax) := by
  constructor
  · intro invs modes lr cmin cmax vb calls h1 h2 m t
    have hcc : cmin ≤ cmax := le_trans h1 h2
    have hz := initBeta_zeros modes invs ([] : PDict μ (PDict τ ℚ))
      (by intro kv hkv; exact absurd hkv (List.not_mem_nil kv))
    have hr : betaInRange cmin cmax
        (mkFeedbackLayerDemo invs modes lr cmin cmax vb : FeedbackLayerDemo μ τ).beta := by
      intro kv hkv iv hiv
      have hzz := hz kv hkv iv hiv
      rw [hzz]
      exact ⟨h1, h2⟩
    have hall := applySeq_range (mkFeedbackLayerDemo invs modes lr cmin cmax vb)
      calls hcc hr
    unfold bget
    cases hb : alookup (applySeq (mkFeedbackLayerDemo invs modes lr cmin cmax vb)
        calls).beta m with
    | none => exact ⟨h1, h2⟩
    | some row =>
      simp only [Option.some_bind]
      cases ht : alookup row t with
      | none => exact ⟨h1, h2⟩
      | some v =>
        exact hall _ (alookup_mem _ _ _ hb) (t, v) (alookup_mem _ _ _ ht)
  · intro modes lr cmin cmax vb calls h1 h2 p
    have hcc : cmin ≤ cmax := le_trans h1 h2
    have hr : flatInRange cmin cmax
        (mkArchetypeTunerDemo modes lr cmin cmax vb : ArchetypeTunerDemo μ τ).beta := by
      intro kv hkv
      exact absurd hkv (List.not_mem_nil kv)
    have hall := tunerApplySeq_range (mkArchetypeTunerDemo modes lr cmin cmax vb)
      calls hcc hr
    cases hb : alookup (tunerApplySeq (mkArchetypeTunerDemo modes lr cmin cmax vb)
        calls).beta p with
    | none => exact ⟨h1, h2⟩
    | some v => exact hall _ (alookup_mem _ _ _ hb)

theorem clamp_invariant_witness :
    ((-1 : ℚ) ≤ (bget (applySeq (mkFeedbackLayerDemo ["Demo-Panic"] ["soft"]
        (1/5) (-1) 1 true) [("soft", [("Demo-Panic", (1:ℚ))], 1),
        ("soft", [("Demo-Panic", (1:ℚ))], 1)]).beta "soft" "Demo-Panic").getD 0 ∧
      (bget (applySeq (mkFeedbackLayerDemo ["Demo-Panic"] ["soft"]
        (1/5) (-1) 1 true) [("soft", [("Demo-Panic", (1:ℚ))], 1),
        ("soft", [("Demo-Panic", (1:ℚ))], 1)]).beta "soft" "Demo-Panic").getD 0 ≤ 1) ∧
    ((-2 : ℚ) ≤ (alookup (tunerApplySeq (mkArchetypeTunerDemo ["M"] (1/10) (-2) 2 false)
        [("M", ["x"], 1)]).beta ("M", "x")).getD 0 ∧
      (alookup (tunerApplySeq (mkArchetypeTunerDemo ["M"] (1/10) (-2) 2 false)
        [("M", ["x"], 1)]).beta ("M", "x")).getD 0 ≤ 2) :=
  ⟨clamp_invariant.1 ["Demo-Panic"] ["soft"] (1/5) (-1) 1 true
      [("soft", [("Demo-Panic", (1:ℚ))], 1), ("soft", [("Demo-Panic", (1:ℚ))], 1)]
      (by norm_num) (by norm_num) "soft" "Demo-Panic",
   clamp_invariant.2 ["M"] (1/10) (-2) 2 false [("M", ["x"], 1)]
      (by norm_num) (by norm_num) ("M", "x")⟩

/-- Python `k.split(sep, 1)` restricted to the two-part success case: split at
the **first** occurrence of `sep`; `none` when `sep` does not occur (Python
then returns a 1-element list and the 2-tuple unpacking raises `ValueError`,
which the CLI seed loops catch and skip with a diagnostic). -/
def pySplitFirst (sep : Char) : List Char → Option (List Char × List Char)
  | [] => none
  | c :: rest =>
    if c = sep then some ([], rest)
    else
      match pySplitFirst sep rest with
      | none => none
      | some p => some (c :: p.1, p.2)

/-- `m, t = k.split("|", 1)` as used by both CLI seed loops. -/
def splitModeToken (k : String) : Option (String × String) :=
  match pySplitFirst '|' k.toList with
  | none => none
  | some p => some (String.mk p.1, String.mk p.2)

/-- Key space of `FeedbackLayerDemo.beta` as actually used by `_demo_cli`:
the class keys the outer dict by `Mode` (left), but the CLI seed loop writes
`demo.beta[(m, t)] = float(v)`, a `(mode, token)` **tuple** key (right) — both
coexist in the same Python dict. -/
abbrev CliKey := String ⊕ (String × String)

/-- Value space of that dict: a nested row (what the class stores) or a bare
float (what the CLI seed writes). -/
abbrev CliVal := (PDict String ℚ) ⊕ ℚ

/-- A `FeedbackLayerDemo.beta` table embedded into the dynamically-typed dict
the CLI writes into. -/
def embed_beta (beta : PDict String (PDict String ℚ)) : PDict CliKey CliVal :=
  beta.map (fun kv => (Sum.inl kv.1, Sum.inl kv.2))

/-- The `_demo_cli` seed loop of `feedback_layer_demo.py` (lines 61–67):
keys without `|` are skipped with a diagnostic; otherwise
`demo.beta[(m, t)] = float(v)` stores the literal value under a tuple key. -/
def demo_cli_seed (beta : PDict CliKey CliVal) (pairs : List (String × ℚ)) :
    PDict CliKey CliVal :=
  pairs.foldl
    (fun b kv =>
      match splitModeToken kv.1 with
      | none => b
      | some mt => aset b (Sum.inr mt) (Sum.inr kv.2))
    beta

/-- The `_demo_tuner_cli` seed loop of `sentinel_guard_demo.py` (lines 270–276):
same parsing, but `tuner.beta` really is keyed by `(mode, token)` tuples, so
the literal value lands where scoring reads it. -/
def demo_tuner_cli_seed (beta : PDict (String × String) ℚ)
    (pairs : List (String × ℚ)) : PDict (String × String) ℚ :=
  pairs.foldl
    (fun b kv =>
      match splitModeToken kv.1 with
      | none => b
      | some mt => aset b mt kv.2)
    beta

/-- Claim C7 evaluated on the code (code_bug record): (1) a key is split on its
first `|`; (2) a key without `|` is skipped, table unchanged; (3) the tuner CLI
stores the literal value `5.0` unclamped (the engine's `clamp_max = 2.0` never
enters the seed path) and it is visible to the tuner's table lookups; but
(4)–(5) in `feedback_layer_demo.py` the same seed loop writes the value under
an outer **tuple** key, so the row the class's `get`/scoring reads for
`(supportive, overload)` still holds `0.0` — the seeded `0.8` is invisible,
sitting under `Sum.inr ("supportive","overload")`. -/
theorem cli_seed_eval :
    splitModeToken "a|b|c" = some ("a", "b|c") ∧
    demo_tuner_cli_seed [] [("nokey", 5)] = [] ∧
    demo_tuner_cli_seed [] [("m|t", 5)] = [(("m", "t"), 5)] ∧
    alookup (demo_cli_seed (embed_beta (initBeta ["supportive"] ["overload"] []))
      [("supportive|overload", 4/5)]) (Sum.inl "supportive")
      = some (Sum.inl [("overload", (0:ℚ))]) ∧
    alookup (demo_cli_seed (embed_beta (initBeta ["supportive"] ["overload"] []))
      [("supportive|overload", 4/5)]) (Sum.inr ("supportive", "overload"))
      = some (Sum.inr (4/5)) :=
  ⟨rfl, rfl, rfl, rfl, rfl⟩

theorem bgetD_eq [DecidableEq μ] [DecidableEq τ] (b : PDict μ (PDict τ ℚ))
    (m : μ) (t : τ) :
    (bget b m t).getD 0 = (alookup ((alookup b m).getD []) t).getD 0 := by
  unfold bget
  cases alookup b m with
  | none => rfl
  | some row => rfl

theorem foldl_aset_mem [DecidableEq κ] (l : List A) (key : A → κ) (val : A → ν)
    (acc : PDict κ ν) (x : κ × ν)
    (hx : x ∈ l.foldl (fun d a => aset d (key a) (val a)) acc) :
    x ∈ acc ∨ ∃ a ∈ l, x = (key a, val a) := by
  induction l generalizing acc with
  | nil => exact Or.inl hx
  | cons a l ih =>
    rw [List.foldl_cons] at hx
    rcases ih _ hx with h | h
    · rcases mem_aset _ _ _ _ h with h2 | h2
      · exact Or.inl h2
      · exact Or.inr ⟨a, List.mem_cons_self _ _, h2⟩
    · obtain ⟨b, hb, hxe⟩ := h
      exact Or.inr ⟨b, List.mem_cons_of_mem _ hb, hxe⟩

/-- Claim C9 (amended): `FeedbackLayerDemo.snapshot_beta` returns exactly the
entries for declared (mode, invariant) pairs, each with its current weight —
entries materialized by OPEN-mode writes for undeclared invariants are
omitted. `ArchetypeTunerDemo.snapshot_beta` re-keys every stored entry as the
string `"mode|token"`: when those strings are pairwise distinct every stored
entry appears, and every snapshot entry comes from a stored entry. The
snapshots are fresh values; in the functional model mutating the live table
cannot alter them. -/
theorem snapshot_contents {μ τ : Type} [DecidableEq μ] [DecidableEq τ] :
    (∀ (e : FeedbackLayerDemo μ τ) (m : μ) (t : τ),
      bget (snapshot_beta e) m t =
        if m ∈ e.modes ∧ t ∈ e.invariants
        then some ((bget e.beta m t).getD 0) else none) ∧
    (∀ e : ArchetypeTunerDemo String String,
      ((e.beta.map (fun kv => kv.1.1 ++ "|" ++ kv.1.2)).Nodup →
        ∀ (m t : String) (v : ℚ), ((m, t), v) ∈ e.beta →
          (m ++ "|" ++ t, v) ∈ tuner_snapshot_beta e) ∧
      (∀ (s : String) (v : ℚ), (s, v) ∈ tuner_snapshot_beta e →
        ∃ m t, ((m, t), v) ∈ e.beta ∧ s = m ++ "|" ++ t)) := by
  constructor
  · intro e m t
    unfold snapshot_beta bget
    rw [alookup_foldl_aset e.modes (fun m2 => e.invariants.foldl
      (fun r inv => aset r inv ((alookup ((alookup e.beta m2).getD []) inv).getD 0)) [])
      [] m]
    by_cases hm : m ∈ e.modes
    · rw [if_pos hm]
      simp only [Option.some_bind]
      rw [alookup_foldl_aset e.invariants
        (fun inv => ((alookup ((alookup e.beta m).getD []) inv).getD 0)) [] t]
      by_cases ht : t ∈ e.invariants
      · rw [if_pos ht, if_pos ⟨hm, ht⟩]
        rw [show ((alookup e.beta m).bind fun r => alookup r t).getD 0
          = (alookup ((alookup e.beta m).getD []) t).getD 0 from bgetD_eq e.beta m t]
      · rw [if_neg ht, if_neg (fun hc => ht hc.2)]
        rfl
    · rw [if_neg hm, if_neg (fun hc => hm hc.1)]
      rfl
  · intro e
    constructor
    · intro hEnc m t v hmem
      unfold tuner_snapshot_beta
      rw [foldl_aset_build e.beta (fun kv => kv.1.1 ++ "|" ++ kv.1.2) (fun kv => kv.2)
        [] hEnc (fun a _ => rfl)]
      rw [List.nil_append]
      exact List.mem_map_of_mem _ hmem
    · intro s v hmem
      unfold tuner_snapshot_beta at hmem
      rcases foldl_aset_mem e.beta (fun kv => kv.1.1 ++ "|" ++ kv.1.2) (fun kv => kv.2)
        [] (s, v) hmem with h | h
      · exact absurd h (List.not_mem_nil _)
      · obtain ⟨kv, hkv, hxe⟩ := h
        refine ⟨kv.1.1, kv.1.2, ?_, ?_⟩
        · have : ((kv.1.1, kv.1.2), v) = kv := by
            rw [Prod.mk.injEq] at hxe
            rw [hxe.2]
          rw [this]
          exact hkv
        · rw [Prod.mk.injEq] at hxe
          exact hxe.1

def t9 : ArchetypeTunerDemo String String :=
  { modes := ["M"]
    beta := [(("A", "x"), 1)]
    learning_rate := 1/10
    clamp_min := -2
    clamp_max := 2
    verbose := false }

theorem snapshot_contents_witness :
    bget (snapshot_beta testE) "soft" "Demo-Panic" =
      (if "soft" ∈ testE.modes ∧ "Demo-Panic" ∈ testE.invariants
       then some ((bget testE.beta "soft" "Demo-Panic").getD 0) else none) ∧
    ("A" ++ "|" ++ "x", (1:ℚ)) ∈ tuner_snapshot_beta t9 :=
  ⟨snapshot_contents.1 testE "soft" "Demo-Panic",
   ((@snapshot_contents String String _ _).2 t9).1 (by decide) "A" "x" 1 (by decide)⟩

def cx9 : FeedbackLayerDemo String String :=
  apply_feedback (mkFeedbackLayerDemo ["a"] ["m"] (1/5) (-1) 1 true) "m"
    [("b", (1:ℚ))] 1

/-- Counterexample to claim C9 as stated: after an OPEN-mode write materializes
the undeclared invariant `"b"`, the live table stores
`beta["m"]["b"] == 0.2`, yet `snapshot_beta` (which iterates the declared
invariants only) omits the pair — the snapshot does **not** contain every
stored entry. -/
theorem snapshot_misses_open_entry :
    bget cx9.beta "m" "b" = some (1/5) ∧
    bget (snapshot_beta cx9) "m" "b" = none ∧
    ¬ ((some ((1:ℚ)/5) : Option ℚ) = none) := by
  have hab : ¬ ("a" : String) = "b" := by decide
  refine ⟨?_, ?_, by simp⟩
  · simp [cx9, mkFeedbackLayerDemo, initBeta, initEnsure, initRow, apply_feedback,
      updateInv, bget, alookup, aset, pyClamp, hab] <;>
    norm_num [cx9, mkFeedbackLayerDemo, initBeta, initEnsure, initRow, apply_feedback,
      updateInv, bget, alookup, aset, pyClamp, hab]
  · simp [cx9, mkFeedbackLayerDemo, initBeta, initEnsure, initRow, apply_feedback,
      updateInv, bget, alookup, aset, pyClamp, snapshot_beta, hab] <;>
    norm_num [cx9, mkFeedbackLayerDemo, initBeta, initEnsure, initRow, apply_feedback,
      updateInv, bget, alookup, aset, pyClamp, snapshot_beta, hab]
